import Mathlib

/-!
# Trombone: a heuristic detector for binaries compiled from Rust

A shallow embedding of `src/main.go`.

* A Go `string` holding text is modelled by a Lean `String`, that is by its
  sequence of code points; `strings.Split(s, "\n")`, `strings.Contains`, the
  literal parts of a regular expression and `strings.Join` act the same on the
  UTF-8 bytes and on the code points of valid UTF-8 text.
* `cmd.Output()` is the only contact with the outside world: its result
  `(output, err)` is the input of every detector (`CmdResult`).
* `strings.ToLower` maps every rune through `unicode.ToLower`.  On ASCII that is
  the usual `A-Z` to `a-z` shift; above ASCII it is a table of the Go standard
  library, which is taken as the parameter `unicodeToLower`.
* `for ... range` loops with `break` are structural recursions that thread the
  `evidence` variable through the iterations.
* The slice expression `lines[startLine:endLine]` of `checkPanicHandlers` can panic at run
  time, so that detector returns an `Option`; its indices are `Int`, as the number of
  lines of an output is far below the range of a Go `int`.
* `Detector` names the five detectors; `Detector.matches`, `Detector.finding` and
  `Detector.cap` describe the match test, the recorded finding and the limit of each, and
  `Detector.run_eq` proves that the loops of the source compute what they describe.
-/

namespace Trombone

/-! ## Data model -/

/-- Evidence represents findings from each detection technique. -/
structure Evidence where
  Technique : String
  Findings : List String
  Positive : Bool
deriving DecidableEq, Repr

/-- The pair `(output, err)` returned by `cmd.Output()`; `err = true` stands for `err != nil`. -/
structure CmdResult where
  output : String
  err : Bool
deriving DecidableEq, Repr

/-- The entry appended to `Findings` when a detector stops at its limit. -/
def omittedMarker : String := "... (more findings omitted)"

/-! ## The Go standard library functions used by the detectors -/

/-- Pieces of a rune sequence between occurrences of the newline rune. -/
def splitNewline : List Char → List (List Char)
  | [] => [[]]
  | c :: cs =>
    if c = '\n' then [] :: splitNewline cs
    else
      match splitNewline cs with
      | [] => [[c]]
      | piece :: pieces => (c :: piece) :: pieces

/-- Go `strings.Split(s, "\n")`. -/
def Split (s : String) : List String :=
  (splitNewline s.data).map String.mk

/-- Substring test on rune sequences: `substr` occurs somewhere in the text. -/
def containsChars (substr : List Char) : List Char → Bool
  | [] => substr.isEmpty
  | c :: cs => substr.isPrefixOf (c :: cs) || containsChars substr cs

/-- Go `strings.Contains(s, substr)`. -/
def Contains (s substr : String) : Bool :=
  containsChars substr.data s.data

/-- Go `unicode.ToLower(r)`: the ASCII shift below `0x80`, the library table above. -/
def lowerRune (unicodeToLower : Char → Char) (r : Char) : Char :=
  if r.val < 128 then
    (if 'A' ≤ r ∧ r ≤ 'Z' then Char.ofNat (r.toNat + 32) else r)
  else unicodeToLower r

/-- Go `strings.ToLower(s)`. -/
def ToLower (unicodeToLower : Char → Char) (s : String) : String :=
  String.mk (s.data.map (lowerRune unicodeToLower))

/-- Go `unicode.IsSpace(r)`: the Unicode White_Space property. -/
def isSpace (r : Char) : Bool :=
  r = '\t' || r = '\n' || r = Char.ofNat 0x0B || r = Char.ofNat 0x0C || r = '\r' || r = ' '
    || r = Char.ofNat 0x85 || r = Char.ofNat 0xA0 || r = Char.ofNat 0x1680
    || (0x2000 ≤ r.toNat && r.toNat ≤ 0x200A)
    || r = Char.ofNat 0x2028 || r = Char.ofNat 0x2029 || r = Char.ofNat 0x202F
    || r = Char.ofNat 0x205F || r = Char.ofNat 0x3000

/-- Go `strings.TrimSpace(s)`: drop the leading and the trailing white space. -/
def TrimSpace (s : String) : String :=
  String.mk ((s.data.dropWhile isSpace).reverse.dropWhile isSpace).reverse

/-- Go `strings.Join(elems, "\n")`. -/
def JoinNewline (elems : List String) : String :=
  "\n".intercalate elems

/-- The part `.*rust.*` of the symbol regex, anchored at the start of the text:
`.` matches every rune but the newline. -/
def matchAnyThenRust : List Char → Bool
  | [] => false
  | c :: cs => "rust".data.isPrefixOf (c :: cs) || (c != '\n' && matchAnyThenRust cs)

/-- The regex `_ZN.*rust.*` tried at every start position of the text. -/
def matchZNRust : List Char → Bool
  | [] => false
  | c :: cs =>
    ("_ZN".data.isPrefixOf (c :: cs) && matchAnyThenRust ((c :: cs).drop 3)) || matchZNRust cs

/-- Go `regexp.MustCompile("_ZN.*rust.*").MatchString(line)`. -/
def rustSymbolRegex_MatchString (line : String) : Bool :=
  matchZNRust line.data

/-! ## checkRustStrings -/

/-- The `rustPatterns` of `checkRustStrings`. -/
def checkRustStrings_rustPatterns : List String :=
  ["rust", "rustc", "cargo",
   "core::result::Result",
   "core::option::Option",
   "std::panic",
   "alloc::",
   "thread 'main' panicked"]

/-- The inner loop of `checkRustStrings` over the patterns, for one line. -/
def checkRustStrings_patternLoop (unicodeToLower : Char → Char) (line : String) :
    List String → Evidence → Evidence
  | [], evidence => evidence
  | pattern :: patterns, evidence =>
    if Contains (ToLower unicodeToLower line) pattern then
      { evidence with Findings := evidence.Findings ++ [line], Positive := true }
    else checkRustStrings_patternLoop unicodeToLower line patterns evidence

/-- The outer loop of `checkRustStrings` over the lines. -/
def checkRustStrings_lineLoop (unicodeToLower : Char → Char) :
    List String → Evidence → Evidence
  | [], evidence => evidence
  | line :: lines, evidence =>
    let evidence :=
      checkRustStrings_patternLoop unicodeToLower line checkRustStrings_rustPatterns evidence
    if evidence.Findings.length ≥ 5 then
      { evidence with Findings := evidence.Findings ++ [omittedMarker] }
    else checkRustStrings_lineLoop unicodeToLower lines evidence

/-- The detector `checkRustStrings`, as a function of the result of `strings <binary>`. -/
def checkRustStrings (unicodeToLower : Char → Char) (r : CmdResult) : Evidence :=
  let evidence : Evidence :=
    { Technique := "Rust-specific strings", Findings := [], Positive := false }
  if r.err then evidence
  else checkRustStrings_lineLoop unicodeToLower (Split r.output) evidence

/-! ## checkSymbolNames -/

/-- The loop of `checkSymbolNames` over the lines. -/
def checkSymbolNames_lineLoop : List String → Evidence → Evidence
  | [], evidence => evidence
  | line :: lines, evidence =>
    let evidence :=
      if rustSymbolRegex_MatchString line then
        { evidence with Findings := evidence.Findings ++ [line], Positive := true }
      else evidence
    if evidence.Findings.length ≥ 5 then
      { evidence with Findings := evidence.Findings ++ [omittedMarker] }
    else checkSymbolNames_lineLoop lines evidence

/-- The detector `checkSymbolNames`, as a function of the result of `nm -a <binary>`. -/
def checkSymbolNames (r : CmdResult) : Evidence :=
  let evidence : Evidence :=
    { Technique := "Rust symbol names", Findings := [], Positive := false }
  if r.err then evidence
  else checkSymbolNames_lineLoop (Split r.output) evidence

/-! ## checkElfInfo -/

/-- The `rustPatterns` of `checkElfInfo`. -/
def checkElfInfo_rustPatterns : List String :=
  ["rust", "rustc",
   ".rust_",
   "core::fmt",
   "core::panicking"]

/-- The inner loop of `checkElfInfo` over the patterns, for one line. -/
def checkElfInfo_patternLoop (unicodeToLower : Char → Char) (line : String) :
    List String → Evidence → Evidence
  | [], evidence => evidence
  | pattern :: patterns, evidence =>
    if Contains (ToLower unicodeToLower line) pattern then
      let trimmedLine := TrimSpace line
      { evidence with Findings := evidence.Findings ++ [trimmedLine], Positive := true }
    else checkElfInfo_patternLoop unicodeToLower line patterns evidence

/-- The outer loop of `checkElfInfo` over the lines. -/
def checkElfInfo_lineLoop (unicodeToLower : Char → Char) :
    List String → Evidence → Evidence
  | [], evidence => evidence
  | line :: lines, evidence =>
    let evidence :=
      checkElfInfo_patternLoop unicodeToLower line checkElfInfo_rustPatterns evidence
    if evidence.Findings.length ≥ 5 then
      { evidence with Findings := evidence.Findings ++ [omittedMarker] }
    else checkElfInfo_lineLoop unicodeToLower lines evidence

/-- The detector `checkElfInfo`, as a function of the result of `readelf -a <binary>`. -/
def checkElfInfo (unicodeToLower : Char → Char) (r : CmdResult) : Evidence :=
  let evidence : Evidence :=
    { Technique := "ELF headers and sections", Findings := [], Positive := false }
  if r.err then evidence
  else checkElfInfo_lineLoop unicodeToLower (Split r.output) evidence

/-! ## checkMemoryAllocator -/

/-- The `rustAllocFunctions` of `checkMemoryAllocator`. -/
def checkMemoryAllocator_rustAllocFunctions : List String :=
  ["__rdl_alloc",
   "__rdl_dealloc",
   "__rdl_realloc",
   "__rdl_alloc_zeroed",
   "__rust_alloc",
   "__rust_dealloc",
   "__rust_realloc"]

/-- The inner loop of `checkMemoryAllocator` over the allocator names, for one line. -/
def checkMemoryAllocator_nameLoop (line : String) : List String → Evidence → Evidence
  | [], evidence => evidence
  | funcName :: funcNames, evidence =>
    if Contains line funcName then
      { evidence with Findings := evidence.Findings ++ [line], Positive := true }
    else checkMemoryAllocator_nameLoop line funcNames evidence

/-- The outer loop of `checkMemoryAllocator` over the lines; it has no limit and no `break`. -/
def checkMemoryAllocator_lineLoop : List String → Evidence → Evidence
  | [], evidence => evidence
  | line :: lines, evidence =>
    checkMemoryAllocator_lineLoop lines
      (checkMemoryAllocator_nameLoop line checkMemoryAllocator_rustAllocFunctions evidence)

/-- The detector `checkMemoryAllocator`, as a function of the result of `nm -D <binary>`. -/
def checkMemoryAllocator (r : CmdResult) : Evidence :=
  let evidence : Evidence :=
    { Technique := "Rust memory allocator", Findings := [], Positive := false }
  if r.err then evidence
  else checkMemoryAllocator_lineLoop (Split r.output) evidence

/-! ## checkPanicHandlers -/

/-- The `panicPatterns` of `checkPanicHandlers`. -/
def checkPanicHandlers_panicPatterns : List String :=
  ["panic",
   "core::panicking",
   "rust_panic",
   "rust_begin_unwind"]

/-- Go `startLine := max(0, i-2)`. -/
def startLine (i : Int) : Int := max 0 (i - 2)

/-- Go `endLine := min(len(lines), i+3)`. -/
def endLine (lines : List String) (i : Int) : Int := min (lines.length : Int) (i + 3)

/-- The Go slice expression `lines[lo:hi]`.  It is `none` where Go panics with a slice
bounds error; the run-time check is made against the length, which never exceeds the
capacity Go checks against. -/
def sliceLines (lines : List String) (lo hi : Int) : Option (List String) :=
  if 0 ≤ lo ∧ lo ≤ hi ∧ hi ≤ (lines.length : Int) then
    some ((lines.drop lo.toNat).take (hi.toNat - lo.toNat))
  else none

/-- The inner loop of `checkPanicHandlers` over the patterns, for the line at index `i`. -/
def checkPanicHandlers_patternLoop (unicodeToLower : Char → Char) (lines : List String)
    (i : Int) (line : String) : List String → Evidence → Option Evidence
  | [], evidence => some evidence
  | pattern :: patterns, evidence =>
    if Contains (ToLower unicodeToLower line) pattern then
      match sliceLines lines (startLine i) (endLine lines i) with
      | none => none
      | some window =>
        let currentContext := JoinNewline window
        some { evidence with
          Findings := evidence.Findings ++ ["Found panic-related code:\n" ++ currentContext],
          Positive := true }
    else checkPanicHandlers_patternLoop unicodeToLower lines i line patterns evidence

/-- The outer loop of `checkPanicHandlers`: `rest` holds the lines from index `i` on. -/
def checkPanicHandlers_lineLoop (unicodeToLower : Char → Char) (lines : List String) :
    Int → List String → Evidence → Option Evidence
  | _, [], evidence => some evidence
  | i, line :: rest, evidence =>
    match checkPanicHandlers_patternLoop unicodeToLower lines i line
        checkPanicHandlers_panicPatterns evidence with
    | none => none
    | some evidence =>
      if evidence.Findings.length ≥ 3 then
        some { evidence with Findings := evidence.Findings ++ [omittedMarker] }
      else checkPanicHandlers_lineLoop unicodeToLower lines (i + 1) rest evidence

/-- The detector `checkPanicHandlers`, as a function of the result of `objdump -d <binary>`;
`none` stands for a run-time panic of the slice expression. -/
def checkPanicHandlers (unicodeToLower : Char → Char) (r : CmdResult) : Option Evidence :=
  let evidence : Evidence :=
    { Technique := "Rust panic handlers", Findings := [], Positive := false }
  if r.err then some evidence
  else
    let lines := Split r.output
    checkPanicHandlers_lineLoop unicodeToLower lines 0 lines evidence

/-! ## analyseEvidence -/

/-- The counting loop of `analyseEvidence`. -/
def analyseEvidence_countLoop : List Evidence → Nat → Nat
  | [], positiveCount => positiveCount
  | e :: rest, positiveCount =>
    analyseEvidence_countLoop rest (if e.Positive then positiveCount + 1 else positiveCount)

/-- The function `analyseEvidence`: the verdict and the confidence. -/
def analyseEvidence (allEvidence : List Evidence) : Bool × String :=
  let positiveCount := analyseEvidence_countLoop allEvidence 0
  match positiveCount with
  | 0 => (false, "none")
  | 1 => (decide (positiveCount > 0), "low")
  | 2 => (decide (positiveCount > 0), "medium")
  | 3 => (decide (positiveCount > 0), "high")
  | _ => (decide (positiveCount > 0), "very high")

/-! ## The five detectors as one family -/

/-- The five detection techniques, in the order `main` runs them. -/
inductive Detector where
  | rustStrings
  | symbolNames
  | elfInfo
  | memoryAllocator
  | panicHandlers
deriving DecidableEq, Repr

/-- Run one detector on the result of its tool; `none` stands for a run-time panic. -/
def Detector.run (unicodeToLower : Char → Char) : Detector → CmdResult → Option Evidence
  | .rustStrings, r => some (checkRustStrings unicodeToLower r)
  | .symbolNames, r => some (checkSymbolNames r)
  | .elfInfo, r => some (checkElfInfo unicodeToLower r)
  | .memoryAllocator, r => some (checkMemoryAllocator r)
  | .panicHandlers, r => checkPanicHandlers unicodeToLower r

/-- The fixed `Technique` of each detector. -/
def Detector.technique : Detector → String
  | .rustStrings => "Rust-specific strings"
  | .symbolNames => "Rust symbol names"
  | .elfInfo => "ELF headers and sections"
  | .memoryAllocator => "Rust memory allocator"
  | .panicHandlers => "Rust panic handlers"

/-! ## The common shape of the five scans -/

/-- One iteration of a scan: a line that matches records its finding and sets `Positive`. -/
def record (evidence : Evidence) (item : Bool × String) : Evidence :=
  if item.1 then
    { evidence with Findings := evidence.Findings ++ [item.2], Positive := true }
  else evidence

/-- A scan with a limit, over the lines given as pairs (matches, finding). -/
def cappedScan (cap : Nat) : List (Bool × String) → Evidence → Evidence
  | [], evidence => evidence
  | item :: items, evidence =>
    let evidence := record evidence item
    if evidence.Findings.length ≥ cap then
      { evidence with Findings := evidence.Findings ++ [omittedMarker] }
    else cappedScan cap items evidence

/-- A scan without a limit, over the lines given as pairs (matches, finding). -/
def uncappedScan : List (Bool × String) → Evidence → Evidence
  | [], evidence => evidence
  | item :: items, evidence => uncappedScan items (record evidence item)

/-- The findings of the matching lines, in input order. -/
def hits (items : List (Bool × String)) : List String :=
  (items.filter (fun item => item.1)).map (fun item => item.2)

/-- What a limit leaves of a list of findings: the first `cap` of them and the marker once
there are `cap` or more, all of them otherwise. -/
def capFindings (cap : Nat) (findings : List String) : List String :=
  if cap ≤ findings.length then findings.take cap ++ [omittedMarker] else findings

/-! ## Each detector as an instance of the common shape -/

/-- The match test of each detector on one line, as coded. -/
def Detector.matches (unicodeToLower : Char → Char) : Detector → String → Bool
  | .rustStrings, line =>
    checkRustStrings_rustPatterns.any (fun pattern => Contains (ToLower unicodeToLower line) pattern)
  | .symbolNames, line => rustSymbolRegex_MatchString line
  | .elfInfo, line =>
    checkElfInfo_rustPatterns.any (fun pattern => Contains (ToLower unicodeToLower line) pattern)
  | .memoryAllocator, line =>
    checkMemoryAllocator_rustAllocFunctions.any (fun funcName => Contains line funcName)
  | .panicHandlers, line =>
    checkPanicHandlers_panicPatterns.any (fun pattern => Contains (ToLower unicodeToLower line) pattern)

/-- The window `lines[startLine:endLine]` around index `i`, for bounds that are in range. -/
def contextWindow (lines : List String) (i : Nat) : List String :=
  (lines.drop (startLine i).toNat).take ((endLine lines i).toNat - (startLine i).toNat)

/-- The finding each detector records for the matching line `line` at index `i` of `lines`. -/
def Detector.finding : Detector → List String → Nat → String → String
  | .rustStrings, _, _, line => line
  | .symbolNames, _, _, line => line
  | .elfInfo, _, _, line => TrimSpace line
  | .memoryAllocator, _, _, line => line
  | .panicHandlers, lines, i, _ =>
    "Found panic-related code:\n" ++ JoinNewline (contextWindow lines i)

/-- The limit each detector puts on its findings; `none` for the detector without one. -/
def Detector.cap : Detector → Option Nat
  | .rustStrings => some 5
  | .symbolNames => some 5
  | .elfInfo => some 5
  | .memoryAllocator => none
  | .panicHandlers => some 3

/-- The matching lines of an output with their indices, in input order. -/
def Detector.matchingLines (unicodeToLower : Char → Char) (d : Detector) (lines : List String) :
    List (Nat × String) :=
  lines.enum.filter (fun p => d.matches unicodeToLower p.2)

/-- The findings of all matching lines of an output, in input order, before any limit. -/
def Detector.allFindings (unicodeToLower : Char → Char) (d : Detector) (lines : List String) :
    List String :=
  (d.matchingLines unicodeToLower lines).map (fun p => d.finding lines p.1 p.2)

/-- The `Findings` a detector is left with on the lines of a successful output. -/
def Detector.limit (d : Detector) (findings : List String) : List String :=
  match d.cap with
  | some cap => capFindings cap findings
  | none => findings

/-- The lines from index `i` on, as pairs (matches, finding). -/
def Detector.itemsFrom (unicodeToLower : Char → Char) (d : Detector) (lines : List String)
    (i : Nat) (rest : List String) : List (Bool × String) :=
  (rest.enumFrom i).map (fun p => (d.matches unicodeToLower p.2, d.finding lines p.1 p.2))

/-! ## The verdict as a function of the number of positive records -/

/-- The verdict and the confidence for a number of positive records, as the aggregation
rule of the specification gives them. -/
def verdictOfCount : Nat → Bool × String
  | 0 => (false, "none")
  | 1 => (true, "low")
  | 2 => (true, "medium")
  | 3 => (true, "high")
  | _ => (true, "very high")

/-- The place of a confidence in the order none < low < medium < high < very high;
`none` for a text that is no confidence. -/
def confidenceRank (confidence : String) : Option Nat :=
  if confidence = "none" then some 0
  else if confidence = "low" then some 1
  else if confidence = "medium" then some 2
  else if confidence = "high" then some 3
  else if confidence = "very high" then some 4
  else none

/-! ## main -/

/-- The results of the five tools `main` runs, one for each detector, in the order of the
detectors. -/
structure ToolResults where
  strings : CmdResult
  nmAll : CmdResult
  readelf : CmdResult
  nmDynamic : CmdResult
  objdump : CmdResult
deriving DecidableEq, Repr

/-- The `allEvidence` of `main`: the Evidence of the five detectors in the order they are
registered; `none` stands for a run-time panic. -/
def main_allEvidence (unicodeToLower : Char → Char) (t : ToolResults) : Option (List Evidence) :=
  match checkPanicHandlers unicodeToLower t.objdump with
  | none => none
  | some panicEvidence =>
    some [checkRustStrings unicodeToLower t.strings,
          checkSymbolNames t.nmAll,
          checkElfInfo unicodeToLower t.readelf,
          checkMemoryAllocator t.nmDynamic,
          panicEvidence]

/-- The pair `isRustBinary, confidence` that `main` gets from `analyseEvidence(allEvidence)`. -/
def main_verdict (unicodeToLower : Char → Char) (t : ToolResults) : Option (Bool × String) :=
  match main_allEvidence unicodeToLower t with
  | none => none
  | some allEvidence => some (analyseEvidence allEvidence)

/-! ## The scan of checkRustStrings with five patterns only -/

/-- The patterns of `checkRustStrings` without `rustc`, `core::result::Result` and
`core::option::Option`. -/
def fivePatterns : List String :=
  ["rust", "cargo",
   "std::panic",
   "alloc::",
   "thread 'main' panicked"]

/-- The outer loop of `checkRustStrings`, run with `fivePatterns` in the place of
`rustPatterns`. -/
def fivePatterns_lineLoop (unicodeToLower : Char → Char) :
    List String → Evidence → Evidence
  | [], evidence => evidence
  | line :: lines, evidence =>
    let evidence :=
      checkRustStrings_patternLoop unicodeToLower line fivePatterns evidence
    if evidence.Findings.length ≥ 5 then
      { evidence with Findings := evidence.Findings ++ [omittedMarker] }
    else fivePatterns_lineLoop unicodeToLower lines evidence

/-- The detector `checkRustStrings`, run with `fivePatterns` in the place of `rustPatterns`. -/
def checkRustStrings_fivePatterns (unicodeToLower : Char → Char) (r : CmdResult) : Evidence :=
  let evidence : Evidence :=
    { Technique := "Rust-specific strings", Findings := [], Positive := false }
  if r.err then evidence
  else fivePatterns_lineLoop unicodeToLower (Split r.output) evidence

/-! ## Lemmas on the common shape -/

theorem hits_nil : hits [] = [] := rfl

theorem hits_cons (item : Bool × String) (items : List (Bool × String)) :
    hits (item :: items) = if item.1 then item.2 :: hits items else hits items := by
  cases h : item.1 <;> simp [hits, List.filter_cons, h]

theorem hits_append (xs ys : List (Bool × String)) : hits (xs ++ ys) = hits xs ++ hits ys := by
  simp [hits]

theorem cappedScan_eq (cap : Nat) (items : List (Bool × String)) (ev : Evidence)
    (hlen : ev.Findings.length < cap) (hpos : ev.Findings ≠ [] → ev.Positive = true) :
    cappedScan cap items ev =
      { Technique := ev.Technique,
        Findings := capFindings cap (ev.Findings ++ hits items),
        Positive := ev.Positive || !(hits items).isEmpty } := by
  induction items generalizing ev with
  | nil =>
    have : ¬ cap ≤ ev.Findings.length := by omega
    simp [cappedScan, hits_nil, capFindings, this]
  | cons item items ih =>
    rw [cappedScan, hits_cons]
    cases hitem : item.1
    · have hrec : record ev item = ev := by simp [record, hitem]
      have hnot : ¬ ev.Findings.length ≥ cap := by omega
      simp only [hrec, hnot, if_false]
      rw [ih ev hlen hpos]
      simp
    · have hrec : record ev item =
          { ev with Findings := ev.Findings ++ [item.2], Positive := true } := by
        simp [record, hitem]
      simp only [hrec, if_true]
      by_cases hcap : (ev.Findings ++ [item.2]).length ≥ cap
      · have hlen2 : ev.Findings.length + 1 = cap := by
          simp at hcap; omega
        have htake : (ev.Findings ++ item.2 :: hits items).take cap = ev.Findings ++ [item.2] := by
          rw [← hlen2, List.take_append, List.take_succ_cons, List.take_zero]
        have hle : cap ≤ (ev.Findings ++ item.2 :: hits items).length := by
          simp; omega
        have hle1 : cap ≤ ev.Findings.length + 1 := by omega
        have hle2 : cap ≤ ev.Findings.length + ((hits items).length + 1) := by omega
        simp [capFindings, htake, hle1, hle2]
      · simp only [hcap, if_false]
        rw [ih]
        · simp
        · simpa using hcap
        · intro _; rfl

theorem uncappedScan_eq (items : List (Bool × String)) (ev : Evidence) :
    uncappedScan items ev =
      { Technique := ev.Technique,
        Findings := ev.Findings ++ hits items,
        Positive := ev.Positive || !(hits items).isEmpty } := by
  induction items generalizing ev with
  | nil => simp [uncappedScan, hits_nil]
  | cons item items ih =>
    rw [uncappedScan, hits_cons, ih]
    cases hitem : item.1 <;> simp [record, hitem]

/-! ## Lemmas on the loops of the detectors -/

theorem checkRustStrings_patternLoop_eq (u : Char → Char) (line : String)
    (patterns : List String) (ev : Evidence) :
    checkRustStrings_patternLoop u line patterns ev =
      record ev (patterns.any (fun pattern => Contains (ToLower u line) pattern), line) := by
  induction patterns with
  | nil => simp [checkRustStrings_patternLoop, record]
  | cons pattern patterns ih =>
    rw [checkRustStrings_patternLoop]
    by_cases h : Contains (ToLower u line) pattern = true
    · simp [h, record]
    · simp [h, ih, record]

theorem checkElfInfo_patternLoop_eq (u : Char → Char) (line : String)
    (patterns : List String) (ev : Evidence) :
    checkElfInfo_patternLoop u line patterns ev =
      record ev (patterns.any (fun pattern => Contains (ToLower u line) pattern),
        TrimSpace line) := by
  induction patterns with
  | nil => simp [checkElfInfo_patternLoop, record]
  | cons pattern patterns ih =>
    rw [checkElfInfo_patternLoop]
    by_cases h : Contains (ToLower u line) pattern = true
    · simp [h, record]
    · simp [h, ih, record]

theorem checkMemoryAllocator_nameLoop_eq (line : String)
    (funcNames : List String) (ev : Evidence) :
    checkMemoryAllocator_nameLoop line funcNames ev =
      record ev (funcNames.any (fun funcName => Contains line funcName), line) := by
  induction funcNames with
  | nil => simp [checkMemoryAllocator_nameLoop, record]
  | cons funcName funcNames ih =>
    rw [checkMemoryAllocator_nameLoop]
    by_cases h : Contains line funcName = true
    · simp [h, record]
    · simp [h, ih, record]

theorem sliceLines_window (lines : List String) (i : Nat) (hi : i < lines.length) :
    sliceLines lines (startLine i) (endLine lines i) = some (contextWindow lines i) := by
  have h : 0 ≤ startLine i ∧ startLine i ≤ endLine lines i ∧
      endLine lines i ≤ (lines.length : Int) := by
    simp only [startLine, endLine]
    omega
  simp [sliceLines, h, contextWindow]

theorem checkPanicHandlers_patternLoop_eq (u : Char → Char) (lines : List String) (i : Nat)
    (hi : i < lines.length) (line : String) (patterns : List String) (ev : Evidence) :
    checkPanicHandlers_patternLoop u lines i line patterns ev =
      some (record ev (patterns.any (fun pattern => Contains (ToLower u line) pattern),
        "Found panic-related code:\n" ++ JoinNewline (contextWindow lines i))) := by
  induction patterns with
  | nil => simp [checkPanicHandlers_patternLoop, record]
  | cons pattern patterns ih =>
    rw [checkPanicHandlers_patternLoop]
    by_cases h : Contains (ToLower u line) pattern = true
    · simp [h, record, sliceLines_window lines i hi]
    · simp [h, ih, record]

theorem checkRustStrings_lineLoop_eq (u : Char → Char) (lines : List String) (i : Nat)
    (rest : List String) (ev : Evidence) :
    checkRustStrings_lineLoop u rest ev =
      cappedScan 5 (Detector.rustStrings.itemsFrom u lines i rest) ev := by
  induction rest generalizing i ev with
  | nil => simp [checkRustStrings_lineLoop, Detector.itemsFrom, cappedScan]
  | cons line rest ih =>
    simp only [checkRustStrings_lineLoop, Detector.itemsFrom, List.enumFrom_cons, List.map_cons,
      cappedScan, checkRustStrings_patternLoop_eq, Detector.matches, Detector.finding]
    rw [ih (i + 1)]
    rfl

theorem checkSymbolNames_lineLoop_eq (u : Char → Char) (lines : List String) (i : Nat)
    (rest : List String) (ev : Evidence) :
    checkSymbolNames_lineLoop rest ev =
      cappedScan 5 (Detector.symbolNames.itemsFrom u lines i rest) ev := by
  induction rest generalizing i ev with
  | nil => simp [checkSymbolNames_lineLoop, Detector.itemsFrom, cappedScan]
  | cons line rest ih =>
    simp only [checkSymbolNames_lineLoop, Detector.itemsFrom, List.enumFrom_cons, List.map_cons,
      cappedScan, Detector.matches, Detector.finding, record]
    rw [ih (i + 1)]
    rfl

theorem checkElfInfo_lineLoop_eq (u : Char → Char) (lines : List String) (i : Nat)
    (rest : List String) (ev : Evidence) :
    checkElfInfo_lineLoop u rest ev =
      cappedScan 5 (Detector.elfInfo.itemsFrom u lines i rest) ev := by
  induction rest generalizing i ev with
  | nil => simp [checkElfInfo_lineLoop, Detector.itemsFrom, cappedScan]
  | cons line rest ih =>
    simp only [checkElfInfo_lineLoop, Detector.itemsFrom, List.enumFrom_cons, List.map_cons,
      cappedScan, checkElfInfo_patternLoop_eq, Detector.matches, Detector.finding]
    rw [ih (i + 1)]
    rfl

theorem checkMemoryAllocator_lineLoop_eq (u : Char → Char) (lines : List String) (i : Nat)
    (rest : List String) (ev : Evidence) :
    checkMemoryAllocator_lineLoop rest ev =
      uncappedScan (Detector.memoryAllocator.itemsFrom u lines i rest) ev := by
  induction rest generalizing i ev with
  | nil => simp [checkMemoryAllocator_lineLoop, Detector.itemsFrom, uncappedScan]
  | cons line rest ih =>
    simp only [checkMemoryAllocator_lineLoop, Detector.itemsFrom, List.enumFrom_cons,
      List.map_cons, uncappedScan, checkMemoryAllocator_nameLoop_eq, Detector.matches,
      Detector.finding]
    rw [ih (i + 1)]
    rfl

theorem checkPanicHandlers_lineLoop_eq (u : Char → Char) (lines : List String) (i : Nat)
    (rest : List String) (hlen : i + rest.length = lines.length) (ev : Evidence) :
    checkPanicHandlers_lineLoop u lines (i : Int) rest ev =
      some (cappedScan 3 (Detector.panicHandlers.itemsFrom u lines i rest) ev) := by
  induction rest generalizing i ev with
  | nil => simp [checkPanicHandlers_lineLoop, Detector.itemsFrom, cappedScan]
  | cons line rest ih =>
    have hi : i < lines.length := by simp at hlen; omega
    have hnext : (i + 1) + rest.length = lines.length := by simp at hlen; omega
    have hcast : (i : Int) + 1 = ((i + 1 : Nat) : Int) := by push_cast; rfl
    simp only [checkPanicHandlers_lineLoop, Detector.itemsFrom, List.enumFrom_cons, List.map_cons,
      cappedScan, checkPanicHandlers_patternLoop_eq u lines i hi, Detector.matches,
      Detector.finding]
    rw [hcast, ih (i + 1) hnext]
    split <;> rfl

/-! ## The result of every detector in closed form -/

theorem hits_itemsFrom_zero (u : Char → Char) (d : Detector) (lines : List String) :
    hits (d.itemsFrom u lines 0 lines) = d.allFindings u lines := by
  unfold hits Detector.itemsFrom Detector.allFindings Detector.matchingLines List.enum
  induction List.enumFrom 0 lines with
  | nil => rfl
  | cons p ps ih =>
    cases h : d.matches u p.2 <;> simp_all [List.filter_cons]

/-- Every detector returns, and what it returns is determined by the findings of the
matching lines of the output. -/
theorem Detector.run_eq (u : Char → Char) (d : Detector) (r : CmdResult) :
    d.run u r = some
      { Technique := d.technique,
        Findings := if r.err then [] else d.limit (d.allFindings u (Split r.output)),
        Positive := !r.err && !(d.allFindings u (Split r.output)).isEmpty } := by
  cases herr : r.err
  · cases d
    · simp [Detector.run, checkRustStrings, herr, Detector.technique, Detector.limit,
        Detector.cap, checkRustStrings_lineLoop_eq u (Split r.output) 0, cappedScan_eq,
        hits_itemsFrom_zero]
    · simp [Detector.run, checkSymbolNames, herr, Detector.technique, Detector.limit,
        Detector.cap, checkSymbolNames_lineLoop_eq u (Split r.output) 0, cappedScan_eq,
        hits_itemsFrom_zero]
    · simp [Detector.run, checkElfInfo, herr, Detector.technique, Detector.limit,
        Detector.cap, checkElfInfo_lineLoop_eq u (Split r.output) 0, cappedScan_eq,
        hits_itemsFrom_zero]
    · simp [Detector.run, checkMemoryAllocator, herr, Detector.technique, Detector.limit,
        Detector.cap, checkMemoryAllocator_lineLoop_eq u (Split r.output) 0, uncappedScan_eq,
        hits_itemsFrom_zero]
    · have h := checkPanicHandlers_lineLoop_eq u (Split r.output) 0 (Split r.output)
        (by simp)
      simp only [Nat.cast_zero] at h
      simp [Detector.run, checkPanicHandlers, herr, Detector.technique, Detector.limit,
        Detector.cap, h, cappedScan_eq, hits_itemsFrom_zero]
  · cases d <;>
      simp [Detector.run, checkRustStrings, checkSymbolNames, checkElfInfo,
        checkMemoryAllocator, checkPanicHandlers, herr, Detector.technique]

/-! ## Lemmas on analyseEvidence -/

theorem analyseEvidence_countLoop_eq (allEvidence : List Evidence) (n : Nat) :
    analyseEvidence_countLoop allEvidence n = n + allEvidence.countP (fun e => e.Positive) := by
  induction allEvidence generalizing n with
  | nil => simp [analyseEvidence_countLoop]
  | cons e rest ih =>
    rw [analyseEvidence_countLoop, ih, List.countP_cons]
    cases e.Positive
    · simp
    · simp; omega

theorem analyseEvidence_eq (allEvidence : List Evidence) :
    analyseEvidence allEvidence = verdictOfCount (allEvidence.countP (fun e => e.Positive)) := by
  unfold analyseEvidence
  simp only [analyseEvidence_countLoop_eq, Nat.zero_add]
  generalize allEvidence.countP (fun e => e.Positive) = c
  match c with
  | 0 => rfl
  | 1 => rfl
  | 2 => rfl
  | 3 => rfl
  | n + 4 => simp [verdictOfCount]

theorem confidenceRank_verdictOfCount (c : Nat) :
    confidenceRank (verdictOfCount c).2 = some (min c 4) := by
  match c with
  | 0 => rfl
  | 1 => rfl
  | 2 => rfl
  | 3 => rfl
  | n + 4 =>
    have h : verdictOfCount (n + 4) = (true, "very high") := by simp [verdictOfCount]
    rw [h]
    simp [confidenceRank]

/-! ## C1 -/

/-- C1: for every list of Evidence records, `analyseEvidence` returns `(false, "none")` when
the number of records with `Positive = true` is 0, `(true, "low")` when it is 1,
`(true, "medium")` when it is 2, `(true, "high")` when it is 3 and `(true, "very high")`
when it is 4 or more. -/
theorem analyseEvidence_tiers (allEvidence : List Evidence) :
    (allEvidence.countP (fun e => e.Positive) = 0 →
        analyseEvidence allEvidence = (false, "none")) ∧
    (allEvidence.countP (fun e => e.Positive) = 1 →
        analyseEvidence allEvidence = (true, "low")) ∧
    (allEvidence.countP (fun e => e.Positive) = 2 →
        analyseEvidence allEvidence = (true, "medium")) ∧
    (allEvidence.countP (fun e => e.Positive) = 3 →
        analyseEvidence allEvidence = (true, "high")) ∧
    (4 ≤ allEvidence.countP (fun e => e.Positive) →
        analyseEvidence allEvidence = (true, "very high")) := by
  rw [analyseEvidence_eq]
  refine ⟨?_, ?_, ?_, ?_, ?_⟩
  · intro h; rw [h]; rfl
  · intro h; rw [h]; rfl
  · intro h; rw [h]; rfl
  · intro h; rw [h]; rfl
  · intro h
    obtain ⟨n, hn⟩ : ∃ n, allEvidence.countP (fun e => e.Positive) = n + 4 :=
      ⟨allEvidence.countP (fun e => e.Positive) - 4, by omega⟩
    rw [hn]
    simp [verdictOfCount]

/-- The five tiers of C1 on concrete evidence lists with 0, 1, 2, 3 and 5 positive records. -/
theorem analyseEvidence_tiers_witness :
    analyseEvidence [⟨"a", [], false⟩, ⟨"b", [], false⟩] = (false, "none") ∧
    analyseEvidence [⟨"a", [], false⟩, ⟨"b", ["x"], true⟩] = (true, "low") ∧
    analyseEvidence [⟨"a", ["y"], true⟩, ⟨"b", [], false⟩, ⟨"c", ["x"], true⟩] =
      (true, "medium") ∧
    analyseEvidence [⟨"a", ["y"], true⟩, ⟨"b", ["z"], true⟩, ⟨"c", ["x"], true⟩] =
      (true, "high") ∧
    analyseEvidence [⟨"a", ["y"], true⟩, ⟨"b", ["z"], true⟩, ⟨"c", ["x"], true⟩,
      ⟨"d", ["y"], true⟩, ⟨"e", ["y"], true⟩] = (true, "very high") :=
  ⟨(analyseEvidence_tiers _).1 (by decide),
   (analyseEvidence_tiers _).2.1 (by decide),
   (analyseEvidence_tiers _).2.2.1 (by decide),
   (analyseEvidence_tiers _).2.2.2.1 (by decide),
   (analyseEvidence_tiers _).2.2.2.2 (by decide)⟩

/-! ## Lemmas on the string functions -/

theorem containsChars_iff (substr text : List Char) :
    containsChars substr text = true ↔ substr <:+: text := by
  induction text with
  | nil => simp [containsChars, List.infix_nil]
  | cons c cs ih =>
    rw [containsChars, Bool.or_eq_true, List.isPrefixOf_iff_prefix, ih, List.infix_cons_iff]

theorem infix_strip_left (Q : Char → Prop) (p : List Char) (hp : ∀ c ∈ p, ¬ Q c) (hne : p ≠ [])
    (front text : List Char) (hfront : ∀ c ∈ front, Q c) (h : p <:+: front ++ text) :
    p <:+: text := by
  induction front with
  | nil => simpa using h
  | cons a front ih =>
    rw [List.cons_append, List.infix_cons_iff] at h
    rcases h with hpre | hin
    · exfalso
      cases p with
      | nil => exact hne rfl
      | cons b p =>
        obtain ⟨t, ht⟩ := hpre
        have hab : b = a := by
          simp only [List.cons_append, List.cons.injEq] at ht
          exact ht.1
        exact hp b (List.mem_cons_self b p) (hab ▸ hfront a (List.mem_cons_self a front))
    · exact ih (fun c hc => hfront c (List.mem_cons_of_mem a hc)) hin

theorem infix_strip_right (Q : Char → Prop) (p : List Char) (hp : ∀ c ∈ p, ¬ Q c) (hne : p ≠ [])
    (text back : List Char) (hback : ∀ c ∈ back, Q c) (h : p <:+: text ++ back) :
    p <:+: text := by
  rw [← List.reverse_infix, List.reverse_append] at h
  rw [← List.reverse_infix]
  exact infix_strip_left Q p.reverse (fun c hc => hp c (List.mem_reverse.mp hc))
    (by simpa using hne) back.reverse text.reverse
    (fun c hc => hback c (List.mem_reverse.mp hc)) h

theorem isSpace_not_upper (c : Char) (h : isSpace c = true) : ¬ ('A' ≤ c ∧ c ≤ 'Z') := by
  simp only [isSpace, Bool.or_eq_true, decide_eq_true_eq, Bool.and_eq_true] at h
  rcases h with
    ((((((((((((((rfl | rfl) | rfl) | rfl) | rfl) | rfl) | rfl) | rfl) | rfl) | h) | rfl) | rfl)
      | rfl) | rfl) | rfl) <;> try decide
  intro hc
  have h2 := hc.2
  rw [Char.le_def, UInt32.le_def] at h2
  have h3 : c.toNat ≤ 90 := h2
  omega

theorem lowerRune_space (u : Char → Char) (hSpace : ∀ c, isSpace c = true → u c = c)
    (c : Char) (h : isSpace c = true) : lowerRune u c = c := by
  unfold lowerRune
  split
  · rw [if_neg (isSpace_not_upper c h)]
  · exact hSpace c h

/-- The runes of a line are white space, then the runes of the trimmed line, then white
space. -/
theorem TrimSpace_decompose (line : String) :
    ∃ front back : List Char, (∀ c ∈ front, isSpace c = true) ∧
      (∀ c ∈ back, isSpace c = true) ∧ line.data = front ++ (TrimSpace line).data ++ back := by
  refine ⟨line.data.takeWhile isSpace,
    ((line.data.dropWhile isSpace).reverse.takeWhile isSpace).reverse,
    fun c hc => List.mem_takeWhile_imp hc,
    fun c hc => List.mem_takeWhile_imp (List.mem_reverse.mp hc), ?_⟩
  have h1 := List.takeWhile_append_dropWhile isSpace line.data
  have h2 := List.takeWhile_append_dropWhile isSpace (line.data.dropWhile isSpace).reverse
  have h3 : line.data.dropWhile isSpace =
      ((line.data.dropWhile isSpace).reverse.dropWhile isSpace).reverse ++
        ((line.data.dropWhile isSpace).reverse.takeWhile isSpace).reverse := by
    rw [← List.reverse_append, h2, List.reverse_reverse]
  simp only [TrimSpace, List.append_assoc]
  rw [← h3, h1]

/-! ## A finding is never the marker -/

theorem ToLower_omittedMarker (u : Char → Char) : ToLower u omittedMarker = omittedMarker := rfl

theorem elfInfo_trimmed_ne_marker (u : Char → Char) (hSpace : ∀ c, isSpace c = true → u c = c)
    (line : String) (hmatch : Detector.elfInfo.matches u line = true) :
    TrimSpace line ≠ omittedMarker := by
  intro heq
  obtain ⟨front, back, hfront, hback, hline⟩ := TrimSpace_decompose line
  rw [heq] at hline
  simp only [Detector.matches, List.any_eq_true] at hmatch
  obtain ⟨pattern, hmem, hcontains⟩ := hmatch
  have hlow : (ToLower u line).data =
      front.map (lowerRune u) ++ (omittedMarker.data ++ back.map (lowerRune u)) := by
    have hm : omittedMarker.data.map (lowerRune u) = omittedMarker.data := rfl
    simp [ToLower, hline, hm]
  rw [Contains, containsChars_iff, hlow] at hcontains
  have hp : ∀ p ∈ checkElfInfo_rustPatterns,
      (∀ c ∈ p.data, ¬ isSpace c = true) ∧ p.data ≠ [] ∧
        containsChars p.data omittedMarker.data = false := by decide
  obtain ⟨hnospace, hne, hnot⟩ := hp pattern hmem
  have hspaceMap : ∀ l : List Char, (∀ c ∈ l, isSpace c = true) →
      ∀ c ∈ l.map (lowerRune u), isSpace c = true := by
    intro l hl c hc
    obtain ⟨a, ha, rfl⟩ := List.mem_map.mp hc
    rw [lowerRune_space u hSpace a (hl a ha)]
    exact hl a ha
  have h1 := infix_strip_left (fun c => isSpace c = true) pattern.data hnospace hne _ _
    (hspaceMap front hfront) hcontains
  have h2 := infix_strip_right (fun c => isSpace c = true) pattern.data hnospace hne _ _
    (hspaceMap back hback) h1
  rw [← containsChars_iff, hnot] at h2
  exact Bool.noConfusion h2

theorem Detector.finding_ne_marker (u : Char → Char)
    (hSpace : ∀ c, isSpace c = true → u c = c) (d : Detector) (lines : List String) (i : Nat)
    (line : String) (hmatch : d.matches u line = true) :
    d.finding lines i line ≠ omittedMarker := by
  cases d with
  | rustStrings =>
    intro heq
    simp only [Detector.finding] at heq
    subst heq
    have h : Detector.rustStrings.matches u omittedMarker = false := rfl
    rw [h] at hmatch
    exact Bool.noConfusion hmatch
  | symbolNames =>
    intro heq
    simp only [Detector.finding] at heq
    subst heq
    have h : Detector.symbolNames.matches u omittedMarker = false := rfl
    rw [h] at hmatch
    exact Bool.noConfusion hmatch
  | elfInfo => exact elfInfo_trimmed_ne_marker u hSpace line hmatch
  | memoryAllocator =>
    intro heq
    simp only [Detector.finding] at heq
    subst heq
    have h : Detector.memoryAllocator.matches u omittedMarker = false := rfl
    rw [h] at hmatch
    exact Bool.noConfusion hmatch
  | panicHandlers =>
    intro heq
    have h := congrArg String.data heq
    simp only [Detector.finding, String.data_append] at h
    have h0 := congrArg List.head? h
    have hl : ("Found panic-related code:\n".data ++
        (JoinNewline (contextWindow lines i)).data).head? = some 'F' := rfl
    have hr : omittedMarker.data.head? = some '.' := rfl
    rw [hl, hr] at h0
    exact absurd h0 (by decide)

/-! ## The matching lines -/

theorem Detector.mem_matchingLines (u : Char → Char) (d : Detector) (lines : List String)
    (p : Nat × String) (hp : p ∈ d.matchingLines u lines) :
    lines[p.1]? = some p.2 ∧ d.matches u p.2 = true := by
  simp only [Detector.matchingLines, List.mem_filter] at hp
  refine ⟨?_, hp.2⟩
  have h := hp.1
  rw [List.enum, List.mem_iff_getElem?] at h
  obtain ⟨n, hn⟩ := h
  rw [List.getElem?_enumFrom] at hn
  cases hl : lines[n]? with
  | none => simp [hl] at hn
  | some a =>
    simp [hl] at hn
    rw [← hn]
    simpa using hl

theorem capFindings_nil (cap : Nat) (h : 0 < cap) : capFindings cap [] = [] := by
  simp [capFindings]; omega

theorem Detector.cap_pos (d : Detector) (cap : Nat) (h : d.cap = some cap) :
    3 ≤ cap ∧ cap ≤ 5 := by
  cases d <;> simp [Detector.cap] at h <;> omega

theorem Detector.limit_nil (d : Detector) : d.limit [] = [] := by
  cases d <;> simp [Detector.limit, Detector.cap, capFindings]

theorem Detector.limit_cons (d : Detector) (first : String) (rest : List String) :
    ∃ tail, d.limit (first :: rest) = first :: tail := by
  cases d <;> simp [Detector.limit, Detector.cap, capFindings] <;> split <;> simp

/-! ## C2 -/

/-- C2: for every detector and every tool result (an output or a failure), the detector
returns an Evidence, and if that Evidence has `Positive = true` then `Findings` has a first
entry, which is not the truncation marker but the finding recorded for a line of the output
that matches.  The table of `unicode.ToLower` is assumed to leave white space unchanged, as
the one of Go does. -/
theorem positive_first_finding_real (u : Char → Char)
    (hSpace : ∀ c, isSpace c = true → u c = c) (d : Detector) (r : CmdResult) :
    ∃ ev, d.run u r = some ev ∧
      (ev.Positive = true →
        ∃ first rest, ev.Findings = first :: rest ∧ first ≠ omittedMarker ∧
          ∃ i line, (Split r.output)[i]? = some line ∧ d.matches u line = true ∧
            first = d.finding (Split r.output) i line) := by
  refine ⟨_, Detector.run_eq u d r, ?_⟩
  intro hpos
  simp only [Bool.and_eq_true, Bool.not_eq_true', List.isEmpty_eq_false] at hpos
  obtain ⟨herr, hne⟩ := hpos
  simp only [herr, Bool.false_eq_true, if_false]
  cases hm : d.matchingLines u (Split r.output) with
  | nil => simp [Detector.allFindings, hm] at hne
  | cons p ps =>
    have hp := Detector.mem_matchingLines u d (Split r.output) p (by simp [hm])
    obtain ⟨tail, htail⟩ := d.limit_cons (d.finding (Split r.output) p.1 p.2)
      (ps.map (fun q => d.finding (Split r.output) q.1 q.2))
    refine ⟨d.finding (Split r.output) p.1 p.2, tail, ?_,
      Detector.finding_ne_marker u hSpace d _ _ _ hp.2, p.1, p.2, hp.1, hp.2, rfl⟩
    simp only [Detector.allFindings, hm, List.map_cons]
    exact htail

/-- C2 at a concrete `readelf` output with one matching line: the Evidence is positive and
its first finding is the trimmed line. -/
theorem positive_first_finding_real_witness :
    Detector.run id .elfInfo ⟨"Section Headers:\n  [29] .rustc  PROGBITS \n", false⟩ =
      some ⟨"ELF headers and sections", ["[29] .rustc  PROGBITS"], true⟩ ∧
    ∃ ev, Detector.run id .elfInfo ⟨"Section Headers:\n  [29] .rustc  PROGBITS \n", false⟩ =
        some ev ∧
      (ev.Positive = true →
        ∃ first rest, ev.Findings = first :: rest ∧ first ≠ omittedMarker ∧
          ∃ i line,
            (Split (CmdResult.mk "Section Headers:\n  [29] .rustc  PROGBITS \n" false).output)[i]?
              = some line ∧
            Detector.elfInfo.matches id line = true ∧
            first = Detector.elfInfo.finding
              (Split (CmdResult.mk "Section Headers:\n  [29] .rustc  PROGBITS \n" false).output)
              i line) :=
  ⟨by decide, positive_first_finding_real id (fun _ _ => rfl) .elfInfo
    ⟨"Section Headers:\n  [29] .rustc  PROGBITS \n", false⟩⟩

/-! ## C3 -/

/-- C3: for every detector and every tool result (an output or a failure), the detector
returns an Evidence, and if that Evidence has `Positive = false` then its `Findings` is
empty: no finding and no truncation marker is recorded without a match. -/
theorem negative_findings_empty (u : Char → Char) (d : Detector) (r : CmdResult) :
    ∃ ev, d.run u r = some ev ∧ (ev.Positive = false → ev.Findings = []) := by
  refine ⟨_, Detector.run_eq u d r, ?_⟩
  intro hneg
  cases herr : r.err
  · simp only [herr, Bool.not_false, Bool.true_and, Bool.not_eq_false',
      List.isEmpty_iff] at hneg
    simp [hneg, Detector.limit_nil]
  · simp

/-- C3 at a concrete `nm -a` output without a matching line: the Evidence is negative and
has no findings. -/
theorem negative_findings_empty_witness :
    Detector.run id .symbolNames ⟨"0000000000001139 T main\n", false⟩ =
      some ⟨"Rust symbol names", [], false⟩ ∧
    ∃ ev, Detector.run id .symbolNames ⟨"0000000000001139 T main\n", false⟩ = some ev ∧
      (ev.Positive = false → ev.Findings = []) :=
  ⟨by decide, negative_findings_empty id .symbolNames ⟨"0000000000001139 T main\n", false⟩⟩

/-! ## C4 -/

theorem Detector.allFindings_empty_output (u : Char → Char) (d : Detector) :
    d.allFindings u (Split "") = [] := by
  cases d <;> rfl

/-- C4: for each of the five detectors, when the tool invocation fails (whatever output
comes with the error) the detector returns the Evidence with its fixed technique name,
`Positive = false` and no findings; it returns the same Evidence when the tool succeeds
with empty output. -/
theorem failure_same_as_empty_output (u : Char → Char) (d : Detector) (output : String) :
    d.run u ⟨output, true⟩ = some ⟨d.technique, [], false⟩ ∧
    d.run u ⟨"", false⟩ = some ⟨d.technique, [], false⟩ ∧
    d.run u ⟨output, true⟩ = d.run u ⟨"", false⟩ := by
  have h1 : d.run u ⟨output, true⟩ = some ⟨d.technique, [], false⟩ := by
    rw [Detector.run_eq]; simp
  have h2 : d.run u ⟨"", false⟩ = some ⟨d.technique, [], false⟩ := by
    rw [Detector.run_eq]
    simp [Detector.allFindings_empty_output, Detector.limit_nil]
  exact ⟨h1, h2, h1.trans h2.symm⟩

/-! ## C5 -/

theorem Detector.run_ok_findings (u : Char → Char) (d : Detector) (r : CmdResult)
    (hok : r.err = false) :
    ∃ ev, d.run u r = some ev ∧ ev.Technique = d.technique ∧
      ev.Findings = d.limit (d.allFindings u (Split r.output)) ∧
      ev.Positive = !(d.allFindings u (Split r.output)).isEmpty := by
  refine ⟨_, Detector.run_eq u d r, rfl, ?_, ?_⟩ <;> simp [hok]

/-- C5: for each detector with a limit `cap` (5 for the string-pattern, the symbol-name and
the structural-metadata detector, 3 for the panic/unwind detector) and every successful
tool output with more than `cap` matching lines, `Findings` is the list of the findings of the
first `cap` matching lines, in input order, followed by the marker; it has `cap + 1` entries,
none of the first `cap` is the marker, and no matching line after the `cap`-th one gets a
finding.  The table of `unicode.ToLower` is assumed to leave white space unchanged. -/
theorem findings_truncated_beyond_cap (u : Char → Char)
    (hSpace : ∀ c, isSpace c = true → u c = c) (d : Detector) (cap : Nat) (r : CmdResult)
    (hcap : d.cap = some cap) (hok : r.err = false)
    (hmore : cap < (d.matchingLines u (Split r.output)).length) :
    ∃ ev, d.run u r = some ev ∧
      ev.Findings =
        ((d.matchingLines u (Split r.output)).take cap).map
          (fun p => d.finding (Split r.output) p.1 p.2) ++ [omittedMarker] ∧
      ev.Findings.length = cap + 1 ∧
      omittedMarker ∉ ((d.matchingLines u (Split r.output)).take cap).map
          (fun p => d.finding (Split r.output) p.1 p.2) := by
  obtain ⟨ev, hrun, -, hfind, -⟩ := Detector.run_ok_findings u d r hok
  have hle : cap ≤ (d.allFindings u (Split r.output)).length := by
    simp only [Detector.allFindings, List.length_map]; omega
  have heq : ev.Findings =
      ((d.matchingLines u (Split r.output)).take cap).map
        (fun p => d.finding (Split r.output) p.1 p.2) ++ [omittedMarker] := by
    rw [hfind, Detector.limit, hcap]
    simp only [capFindings, hle, if_true]
    simp [Detector.allFindings, List.map_take]
  refine ⟨ev, hrun, heq, ?_, ?_⟩
  · rw [heq]
    simp only [List.length_append, List.length_map, List.length_take, List.length_singleton]
    omega
  · intro hmem
    obtain ⟨p, hp, hpe⟩ := List.mem_map.mp hmem
    have hp2 := Detector.mem_matchingLines u d (Split r.output) p (List.mem_of_mem_take hp)
    exact Detector.finding_ne_marker u hSpace d _ _ _ hp2.2 hpe

/-- C5 at a concrete disassembly with four matching lines (indices 1, 2, 4 and 6): the
findings are the context blocks of the first three of them and the marker. -/
theorem findings_truncated_beyond_cap_witness :
    Detector.run id .panicHandlers ⟨"a\ncall panic\ncore::panicking\nb\nrust_panic\nc\nPanic", false⟩
      = some ⟨"Rust panic handlers",
          ["Found panic-related code:\na\ncall panic\ncore::panicking\nb",
           "Found panic-related code:\na\ncall panic\ncore::panicking\nb\nrust_panic",
           "Found panic-related code:\ncore::panicking\nb\nrust_panic\nc\nPanic",
           "... (more findings omitted)"], true⟩ ∧
    ∃ ev, Detector.run id .panicHandlers
        ⟨"a\ncall panic\ncore::panicking\nb\nrust_panic\nc\nPanic", false⟩ = some ev ∧
      ev.Findings =
        ((Detector.panicHandlers.matchingLines id
            (Split "a\ncall panic\ncore::panicking\nb\nrust_panic\nc\nPanic")).take 3).map
          (fun p => Detector.panicHandlers.finding
            (Split "a\ncall panic\ncore::panicking\nb\nrust_panic\nc\nPanic") p.1 p.2)
          ++ [omittedMarker] ∧
      ev.Findings.length = 3 + 1 ∧
      omittedMarker ∉
        ((Detector.panicHandlers.matchingLines id
            (Split "a\ncall panic\ncore::panicking\nb\nrust_panic\nc\nPanic")).take 3).map
          (fun p => Detector.panicHandlers.finding
            (Split "a\ncall panic\ncore::panicking\nb\nrust_panic\nc\nPanic") p.1 p.2) :=
  ⟨by decide,
   findings_truncated_beyond_cap id (fun _ _ => rfl) .panicHandlers 3
    ⟨"a\ncall panic\ncore::panicking\nb\nrust_panic\nc\nPanic", false⟩ rfl rfl (by decide)⟩

/-! ## C6 -/

/-- C6, the code at the failing input: on a dynamic-symbol dump whose seven lines all match,
`checkMemoryAllocator` records seven findings, more than six, and no marker: its loop has
no length test and no `break`.  On a symbol dump with seven matching lines the other
detector that reads `nm`, `checkSymbolNames`, stops at five findings and the marker. -/
theorem memoryAllocator_records_seven :
    (checkMemoryAllocator
      ⟨"__rdl_alloc\n__rdl_dealloc\n__rdl_realloc\n__rdl_alloc_zeroed\n__rust_alloc\n__rust_dealloc\n__rust_realloc",
        false⟩).Findings =
      ["__rdl_alloc", "__rdl_dealloc", "__rdl_realloc", "__rdl_alloc_zeroed", "__rust_alloc",
        "__rust_dealloc", "__rust_realloc"] ∧
    ¬ (checkMemoryAllocator
      ⟨"__rdl_alloc\n__rdl_dealloc\n__rdl_realloc\n__rdl_alloc_zeroed\n__rust_alloc\n__rust_dealloc\n__rust_realloc",
        false⟩).Findings.length ≤ 6 ∧
    omittedMarker ∉ (checkMemoryAllocator
      ⟨"__rdl_alloc\n__rdl_dealloc\n__rdl_realloc\n__rdl_alloc_zeroed\n__rust_alloc\n__rust_dealloc\n__rust_realloc",
        false⟩).Findings ∧
    (checkSymbolNames
      ⟨"_ZN4rust1a\n_ZN4rust1b\n_ZN4rust1c\n_ZN4rust1d\n_ZN4rust1e\n_ZN4rust1f\n_ZN4rust1g",
        false⟩).Findings =
      ["_ZN4rust1a", "_ZN4rust1b", "_ZN4rust1c", "_ZN4rust1d", "_ZN4rust1e",
        "... (more findings omitted)"] := by
  decide

/-- The limit of the four detectors that have one: it is between 3 and 5; for every tool
result `Findings` has at most `cap + 1`, so at most 6, entries, and on a successful output
it is the findings of all matching lines when these are fewer than `cap`, and otherwise the
findings of the first `cap` matching lines followed by the marker, the scan having stopped
there. -/
theorem findings_bounded_by_cap (u : Char → Char) (d : Detector) (cap : Nat) (r : CmdResult)
    (hcap : d.cap = some cap) :
    ∃ ev, d.run u r = some ev ∧
      3 ≤ cap ∧ cap ≤ 5 ∧ ev.Findings.length ≤ cap + 1 ∧ ev.Findings.length ≤ 6 ∧
      (r.err = false →
        ev.Findings =
          if cap ≤ (d.allFindings u (Split r.output)).length then
            (d.allFindings u (Split r.output)).take cap ++ [omittedMarker]
          else d.allFindings u (Split r.output)) := by
  refine ⟨_, Detector.run_eq u d r, ?_⟩
  have hb := d.cap_pos cap hcap
  have hlen : (if r.err then [] else d.limit (d.allFindings u (Split r.output))).length
      ≤ cap + 1 := by
    cases r.err
    · simp only [Bool.false_eq_true, if_false, Detector.limit, hcap, capFindings]
      split
      · simp only [List.length_append, List.length_take, List.length_singleton]
        omega
      · omega
    · simp
  refine ⟨hb.1, hb.2, hlen, le_trans hlen (by omega), ?_⟩
  intro hok
  simp [hok, Detector.limit, hcap, capFindings]

/-! ## C7 -/

/-- C7, the code at the failing input: the strings dump whose only line is
`core::option::Option` gives a negative Evidence without findings, because the lower-cased
line `core::option::option` is compared with the pattern as written, capitals included;
the same line in another letter case of a pattern without capitals is found. -/
theorem rustStrings_option_pattern_not_found (u : Char → Char) :
    checkRustStrings u ⟨"core::option::Option", false⟩ =
      ⟨"Rust-specific strings", [], false⟩ ∧
    checkRustStrings u ⟨"core::result::Result", false⟩ =
      ⟨"Rust-specific strings", [], false⟩ ∧
    checkRustStrings u ⟨"STD::PANIC", false⟩ =
      ⟨"Rust-specific strings", ["STD::PANIC"], true⟩ :=
  ⟨rfl, rfl, rfl⟩

/-! ## C8 -/

theorem enumFrom_filter_map_snd (m : String → Bool) (lines : List String) (n : Nat) :
    ((lines.enumFrom n).filter (fun p => m p.2)).map (fun p => p.2) = lines.filter m := by
  induction lines generalizing n with
  | nil => rfl
  | cons line lines ih =>
    cases h : m line <;> simp [List.enumFrom_cons, List.filter_cons, h, ih]

theorem checkMemoryAllocator_findings (r : CmdResult) (hok : r.err = false) :
    (checkMemoryAllocator r).Findings =
        (Split r.output).filter (fun line =>
          checkMemoryAllocator_rustAllocFunctions.any (fun funcName => Contains line funcName)) ∧
    (checkMemoryAllocator r).Positive =
        !((Split r.output).filter (fun line =>
          checkMemoryAllocator_rustAllocFunctions.any
            (fun funcName => Contains line funcName))).isEmpty := by
  have hall : Detector.memoryAllocator.allFindings id (Split r.output) =
      (Split r.output).filter (fun line =>
        checkMemoryAllocator_rustAllocFunctions.any (fun funcName => Contains line funcName)) := by
    simp only [Detector.allFindings, Detector.matchingLines, Detector.finding, List.enum]
    exact enumFrom_filter_map_snd _ _ 0
  have h := Detector.run_eq id .memoryAllocator r
  simp only [Detector.run, Option.some.injEq] at h
  rw [h]
  simp [hok, Detector.limit, Detector.cap, hall]

/-- C8, the claim refuted: a dynamic-symbol dump whose only line holds `__RUST_ALLOC` gives a
negative Evidence without findings. -/
theorem memoryAllocator_upper_case_not_found :
    checkMemoryAllocator ⟨"0000000000012340 T __RUST_ALLOC", false⟩ =
      ⟨"Rust memory allocator", [], false⟩ ∧
    ¬ (checkMemoryAllocator ⟨"0000000000012340 T __RUST_ALLOC", false⟩).Positive = true := by
  decide

/-- C8 as amended: `checkMemoryAllocator` matches its list of allocator names with the exact
letter case.  On every successful dump, a line is among the findings if and only if it is a
line of the dump in which one of the names `__rdl_alloc`, `__rdl_dealloc`, `__rdl_realloc`,
`__rdl_alloc_zeroed`, `__rust_alloc`, `__rust_dealloc`, `__rust_realloc` occurs as written,
and the Evidence is positive if and only if there is such a line. -/
theorem memoryAllocator_case_sensitive (r : CmdResult) (hok : r.err = false) :
    (∀ line, line ∈ (checkMemoryAllocator r).Findings ↔
      line ∈ Split r.output ∧
        ∃ funcName ∈ checkMemoryAllocator_rustAllocFunctions, funcName.data <:+: line.data) ∧
    ((checkMemoryAllocator r).Positive = true ↔
      ∃ line ∈ Split r.output,
        ∃ funcName ∈ checkMemoryAllocator_rustAllocFunctions, funcName.data <:+: line.data) := by
  obtain ⟨hf, hp⟩ := checkMemoryAllocator_findings r hok
  constructor
  · intro line
    rw [hf, List.mem_filter, List.any_eq_true]
    simp only [Contains, containsChars_iff]
  · rw [hp]
    simp only [Bool.not_eq_true', List.isEmpty_eq_false, ne_eq, List.filter_eq_nil_iff,
      List.any_eq_true, Contains, containsChars_iff]
    push_neg
    rfl

/-- C8 as amended, at a concrete dump: the line with the name in lower case is found, the
one in upper case is not. -/
theorem memoryAllocator_case_sensitive_witness :
    checkMemoryAllocator ⟨"T __RUST_ALLOC\nT __rust_alloc", false⟩ =
      ⟨"Rust memory allocator", ["T __rust_alloc"], true⟩ ∧
    ((checkMemoryAllocator ⟨"T __RUST_ALLOC\nT __rust_alloc", false⟩).Positive = true ↔
      ∃ line ∈ Split (CmdResult.mk "T __RUST_ALLOC\nT __rust_alloc" false).output,
        ∃ funcName ∈ checkMemoryAllocator_rustAllocFunctions, funcName.data <:+: line.data) :=
  ⟨by decide,
   (memoryAllocator_case_sensitive ⟨"T __RUST_ALLOC\nT __rust_alloc", false⟩ rfl).2⟩

/-! ## C9 -/

/-- C9: `analyseEvidence` is invariant under reordering: two lists of Evidence that are
permutations of each other get the same verdict and confidence; more generally so do two
lists with the same number of records with `Positive = true`, whatever the positions, the
technique names and the findings. -/
theorem analyseEvidence_perm_invariant (allEvidence other : List Evidence) :
    (allEvidence.Perm other → analyseEvidence allEvidence = analyseEvidence other) ∧
    (allEvidence.countP (fun e => e.Positive) = other.countP (fun e => e.Positive) →
      analyseEvidence allEvidence = analyseEvidence other) := by
  refine ⟨fun h => ?_, fun h => ?_⟩
  · rw [analyseEvidence_eq, analyseEvidence_eq, h.countP_eq]
  · rw [analyseEvidence_eq, analyseEvidence_eq, h]

/-- C9 on a concrete list and a reordering of it with other names and findings. -/
theorem analyseEvidence_perm_invariant_witness :
    analyseEvidence [⟨"a", ["x"], true⟩, ⟨"b", [], false⟩, ⟨"c", ["y"], true⟩] =
      analyseEvidence [⟨"b", [], false⟩, ⟨"c", ["y"], true⟩, ⟨"a", ["x"], true⟩] ∧
    analyseEvidence [⟨"a", ["x"], true⟩, ⟨"b", [], false⟩, ⟨"c", ["y"], true⟩] =
      analyseEvidence [⟨"p", ["z", "w"], true⟩, ⟨"q", ["v"], true⟩, ⟨"r", [], false⟩] :=
  ⟨(analyseEvidence_perm_invariant _ _).1
      (@List.perm_append_comm Evidence [Evidence.mk "a" ["x"] true]
        [Evidence.mk "b" [] false, Evidence.mk "c" ["y"] true]),
   (analyseEvidence_perm_invariant _ _).2 (by decide)⟩

/-! ## C10 -/

theorem countP_set_positive (before after : List Evidence) (e : Evidence)
    (hneg : e.Positive = false) :
    (before ++ { e with Positive := true } :: after).countP (fun x => x.Positive) =
      (before ++ e :: after).countP (fun x => x.Positive) + 1 := by
  simp only [List.countP_append, List.countP_cons, hneg]
  simp
  omega

theorem verdictOfCount_fst (c : Nat) : (verdictOfCount c).1 = decide (0 < c) := by
  match c with
  | 0 => rfl
  | 1 => rfl
  | 2 => rfl
  | 3 => rfl
  | n + 4 => simp [verdictOfCount]

theorem verdictOfCount_ge_four (c : Nat) (h : 4 ≤ c) :
    verdictOfCount c = (true, "very high") := by
  obtain ⟨n, rfl⟩ : ∃ n, c = n + 4 := ⟨c - 4, by omega⟩
  simp [verdictOfCount]

/-- C10: with the confidences ordered none < low < medium < high < very high (places 0 to
4), the confidence `analyseEvidence` returns has the place `min count 4`, where `count` is
the number of positive records.  So for two lists of Evidence the confidence does not
decrease when the count does not, it increases strictly when the count increases from
below 4, and it is "very high" for every count of 4 or more; and changing one record of a
list from negative to positive never lowers the confidence and never turns a match into a
no-match. -/
theorem confidence_monotone (allEvidence other before after : List Evidence) (e : Evidence) :
    (∃ k k', confidenceRank (analyseEvidence allEvidence).2 = some k ∧
      confidenceRank (analyseEvidence other).2 = some k' ∧
      k = min (allEvidence.countP (fun x => x.Positive)) 4 ∧
      (allEvidence.countP (fun x => x.Positive) ≤ other.countP (fun x => x.Positive) →
        k ≤ k') ∧
      (allEvidence.countP (fun x => x.Positive) < other.countP (fun x => x.Positive) →
        allEvidence.countP (fun x => x.Positive) < 4 → k < k') ∧
      (4 ≤ allEvidence.countP (fun x => x.Positive) →
        4 ≤ other.countP (fun x => x.Positive) →
        (analyseEvidence allEvidence).2 = "very high" ∧
          (analyseEvidence other).2 = "very high")) ∧
    (e.Positive = false →
      ∃ k k', confidenceRank (analyseEvidence (before ++ e :: after)).2 = some k ∧
        confidenceRank
          (analyseEvidence (before ++ { e with Positive := true } :: after)).2 = some k' ∧
        k ≤ k' ∧
        ((analyseEvidence (before ++ e :: after)).1 = true →
          (analyseEvidence (before ++ { e with Positive := true } :: after)).1 = true)) := by
  constructor
  · refine ⟨min (allEvidence.countP (fun x => x.Positive)) 4,
      min (other.countP (fun x => x.Positive)) 4, ?_, ?_, rfl, ?_, ?_, ?_⟩
    · rw [analyseEvidence_eq, confidenceRank_verdictOfCount]
    · rw [analyseEvidence_eq, confidenceRank_verdictOfCount]
    · intro h; omega
    · intro h h4; omega
    · intro h h'
      rw [analyseEvidence_eq, analyseEvidence_eq, verdictOfCount_ge_four _ h,
        verdictOfCount_ge_four _ h']
      exact ⟨rfl, rfl⟩
  · intro hneg
    refine ⟨min ((before ++ e :: after).countP (fun x => x.Positive)) 4,
      min ((before ++ { e with Positive := true } :: after).countP (fun x => x.Positive)) 4,
      ?_, ?_, ?_, ?_⟩
    · rw [analyseEvidence_eq, confidenceRank_verdictOfCount]
    · rw [analyseEvidence_eq, confidenceRank_verdictOfCount]
    · rw [countP_set_positive before after e hneg]; omega
    · rw [analyseEvidence_eq, analyseEvidence_eq, verdictOfCount_fst, verdictOfCount_fst,
        countP_set_positive before after e hneg]
      simp

/-- C10 on concrete lists: one positive record against three, and a list in which the
second record is changed from negative to positive. -/
theorem confidence_monotone_witness :
    analyseEvidence [⟨"a", ["x"], true⟩, ⟨"b", [], false⟩] = (true, "low") ∧
    analyseEvidence [⟨"a", ["x"], true⟩, ⟨"b", ["y"], true⟩] = (true, "medium") ∧
    ∃ k k', confidenceRank (analyseEvidence ([⟨"a", ["x"], true⟩] ++ ⟨"b", [], false⟩ :: [])).2
        = some k ∧
      confidenceRank (analyseEvidence
        ([⟨"a", ["x"], true⟩] ++ { (⟨"b", [], false⟩ : Evidence) with Positive := true } :: [])).2
        = some k' ∧
      k ≤ k' ∧
      ((analyseEvidence ([⟨"a", ["x"], true⟩] ++ ⟨"b", [], false⟩ :: [])).1 = true →
        (analyseEvidence
          ([⟨"a", ["x"], true⟩] ++ { (⟨"b", [], false⟩ : Evidence) with Positive := true }
            :: [])).1 = true) :=
  ⟨by decide, by decide,
   (confidence_monotone [] [] [⟨"a", ["x"], true⟩] [] ⟨"b", [], false⟩).2 rfl⟩

/-! ## The context window of checkPanicHandlers -/

theorem startLine_toNat (i : Nat) : (startLine i).toNat = i - 2 := by
  simp only [startLine]; omega

theorem endLine_toNat (lines : List String) (i : Nat) :
    (endLine lines i).toNat = min lines.length (i + 3) := by
  simp only [endLine]; omega

theorem contextWindow_length (lines : List String) (i : Nat) (hi : i < lines.length) :
    (contextWindow lines i).length = min lines.length (i + 3) - (i - 2) := by
  simp only [contextWindow, startLine_toNat, endLine_toNat, List.length_take, List.length_drop]
  omega

theorem contextWindow_getElem? (lines : List String) (i j : Nat) :
    (contextWindow lines i)[j]? =
      if (i - 2) + j < min lines.length (i + 3) then lines[(i - 2) + j]? else none := by
  simp only [contextWindow, startLine_toNat, endLine_toNat, List.getElem?_take,
    List.getElem?_drop]
  by_cases h : (i - 2) + j < min lines.length (i + 3)
  · have h2 : j < min lines.length (i + 3) - (i - 2) := by omega
    simp [h, h2]
  · have h2 : ¬ j < min lines.length (i + 3) - (i - 2) := by omega
    simp [h, h2]

/-! ## C11 -/

/-- C11: on every successful disassembly, `checkPanicHandlers` returns, and its findings are
those of the matching lines in input order, cut at 3; the finding of the matching line at
index `i` of the `n` lines is the label `Found panic-related code:`, a newline, and the lines
with the indices from `max(0, i-2)` to `min(n, i+3) - 1` joined by newlines.  That window
holds the matched line itself at the place `min i 2`, so at most 2 lines before it, at most
2 lines after it, and between 1 and 5 lines in all. -/
theorem panic_finding_context_block (u : Char → Char) (r : CmdResult) (hok : r.err = false) :
    ∃ ev, checkPanicHandlers u r = some ev ∧
      ev.Findings = capFindings 3
        ((Detector.panicHandlers.matchingLines u (Split r.output)).map (fun p =>
          "Found panic-related code:\n" ++ JoinNewline (contextWindow (Split r.output) p.1))) ∧
      ∀ (i : Nat) (line : String), (Split r.output)[i]? = some line →
        (∀ j : Nat, (contextWindow (Split r.output) i)[j]? =
          if max 0 ((i : Int) - 2) + j ≤ min ((Split r.output).length : Int) (i + 3) - 1 then
            (Split r.output)[(max 0 ((i : Int) - 2)).toNat + j]?
          else none) ∧
        (contextWindow (Split r.output) i)[min i 2]? = some line ∧
        1 ≤ (contextWindow (Split r.output) i).length ∧
        (contextWindow (Split r.output) i).length ≤ 5 ∧
        (contextWindow (Split r.output) i).length - 1 - min i 2 ≤ 2 := by
  obtain ⟨ev, hrun, -, hfind, -⟩ := Detector.run_ok_findings u .panicHandlers r hok
  refine ⟨ev, hrun, ?_, ?_⟩
  · rw [hfind]
    rfl
  · intro i line hline
    have hi : i < (Split r.output).length := (List.getElem?_eq_some_iff.mp hline).1
    have hlen := contextWindow_length (Split r.output) i hi
    refine ⟨?_, ?_, by omega, by omega, by omega⟩
    · intro j
      rw [contextWindow_getElem?]
      have hlo : (max 0 ((i : Int) - 2)).toNat = i - 2 := by omega
      rw [hlo]
      by_cases h : (i - 2) + j < min (Split r.output).length (i + 3)
      · have h2 : max 0 ((i : Int) - 2) + j ≤
            min ((Split r.output).length : Int) (i + 3) - 1 := by omega
        simp [h, h2]
      · have h2 : ¬ max 0 ((i : Int) - 2) + j ≤
            min ((Split r.output).length : Int) (i + 3) - 1 := by omega
        simp [h, h2]
    · rw [contextWindow_getElem?]
      have h1 : (i - 2) + min i 2 = i := by omega
      have h2 : i < min (Split r.output).length (i + 3) := by omega
      rw [h1, if_pos h2, hline]

/-- C11 at a concrete disassembly of four lines whose first and last line match: the two
context blocks are clamped at the start and at the end of the output. -/
theorem panic_finding_context_block_witness :
    checkPanicHandlers id ⟨"call rust_panic\nmov\nret\ncall panic", false⟩ =
      some ⟨"Rust panic handlers",
        ["Found panic-related code:\ncall rust_panic\nmov\nret",
         "Found panic-related code:\nmov\nret\ncall panic"], true⟩ ∧
    ∃ ev, checkPanicHandlers id ⟨"call rust_panic\nmov\nret\ncall panic", false⟩ = some ev ∧
      ev.Findings = capFindings 3
        ((Detector.panicHandlers.matchingLines id
            (Split "call rust_panic\nmov\nret\ncall panic")).map (fun p =>
          "Found panic-related code:\n" ++
            JoinNewline (contextWindow (Split "call rust_panic\nmov\nret\ncall panic") p.1))) :=
  ⟨by decide,
   (panic_finding_context_block id ⟨"call rust_panic\nmov\nret\ncall panic", false⟩ rfl).elim
     (fun ev h => ⟨ev, h.1, h.2.1⟩)⟩

/-! ## C12 -/

/-- C12: in `checkPanicHandlers` the slice of the context window is always in range: for
lines of an output and an index `i` with `0 ≤ i < n`, the bounds `startLine = max(0, i-2)`
and `endLine = min(n, i+3)` satisfy `0 ≤ startLine ≤ i < endLine ≤ n`, the slice expression
does not panic and its result is not empty; so `checkPanicHandlers` returns an Evidence on
every tool result. -/
theorem context_slice_in_range (u : Char → Char) (r : CmdResult) (lines : List String)
    (i : Int) :
    (0 ≤ i → i < (lines.length : Int) →
      startLine i = max 0 (i - 2) ∧ endLine lines i = min (lines.length : Int) (i + 3) ∧
      0 ≤ startLine i ∧ startLine i ≤ i ∧ i < endLine lines i ∧
      endLine lines i ≤ (lines.length : Int) ∧
      ∃ window, sliceLines lines (startLine i) (endLine lines i) = some window ∧
        window ≠ []) ∧
    ∃ ev, checkPanicHandlers u r = some ev := by
  refine ⟨fun h0 hn => ?_, _, Detector.run_eq u .panicHandlers r⟩
  have hb : 0 ≤ startLine i ∧ startLine i ≤ i ∧ i < endLine lines i ∧
      endLine lines i ≤ (lines.length : Int) := by
    simp only [startLine, endLine]; omega
  refine ⟨rfl, rfl, hb.1, hb.2.1, hb.2.2.1, hb.2.2.2,
    (lines.drop (startLine i).toNat).take ((endLine lines i).toNat - (startLine i).toNat),
    ?_, ?_⟩
  · have hc : 0 ≤ startLine i ∧ startLine i ≤ endLine lines i ∧
        endLine lines i ≤ (lines.length : Int) := ⟨hb.1, by omega, hb.2.2.2⟩
    simp only [sliceLines, hc, and_self, if_true]
  · intro hnil
    have hlen := congrArg List.length hnil
    simp only [List.length_take, List.length_drop, List.length_nil] at hlen
    omega

/-- C12 at the first and at the last index of an output of four lines. -/
theorem context_slice_in_range_witness :
    (0 ≤ startLine 0 ∧ startLine 0 ≤ 0 ∧ (0 : Int) < endLine ["a", "b", "c", "d"] 0 ∧
      endLine ["a", "b", "c", "d"] 0 ≤ 4 ∧
      sliceLines ["a", "b", "c", "d"] (startLine 0) (endLine ["a", "b", "c", "d"] 0) =
        some ["a", "b", "c"]) ∧
    (0 ≤ startLine 3 ∧ startLine 3 ≤ 3 ∧ (3 : Int) < endLine ["a", "b", "c", "d"] 3 ∧
      endLine ["a", "b", "c", "d"] 3 ≤ 4 ∧
      sliceLines ["a", "b", "c", "d"] (startLine 3) (endLine ["a", "b", "c", "d"] 3) =
        some ["b", "c", "d"]) :=
  ⟨⟨((context_slice_in_range id ⟨"", false⟩ ["a", "b", "c", "d"] 0).1
        (by decide) (by decide)).2.2.1,
    ((context_slice_in_range id ⟨"", false⟩ ["a", "b", "c", "d"] 0).1
        (by decide) (by decide)).2.2.2.1,
    ((context_slice_in_range id ⟨"", false⟩ ["a", "b", "c", "d"] 0).1
        (by decide) (by decide)).2.2.2.2.1,
    ((context_slice_in_range id ⟨"", false⟩ ["a", "b", "c", "d"] 0).1
        (by decide) (by decide)).2.2.2.2.2.1,
    by decide⟩,
   ⟨((context_slice_in_range id ⟨"", false⟩ ["a", "b", "c", "d"] 3).1
        (by decide) (by decide)).2.2.1,
    ((context_slice_in_range id ⟨"", false⟩ ["a", "b", "c", "d"] 3).1
        (by decide) (by decide)).2.2.2.1,
    ((context_slice_in_range id ⟨"", false⟩ ["a", "b", "c", "d"] 3).1
        (by decide) (by decide)).2.2.2.2.1,
    ((context_slice_in_range id ⟨"", false⟩ ["a", "b", "c", "d"] 3).1
        (by decide) (by decide)).2.2.2.2.2.1,
    by decide⟩⟩

/-! ## When a detector is positive -/

theorem Detector.matchingLines_map_snd (u : Char → Char) (d : Detector) (lines : List String) :
    (d.matchingLines u lines).map (fun p => p.2) = lines.filter (d.matches u) := by
  simp only [Detector.matchingLines, List.enum]
  exact enumFrom_filter_map_snd (d.matches u) lines 0

theorem Detector.matchingLines_length (u : Char → Char) (d : Detector) (lines : List String) :
    (d.matchingLines u lines).length = (lines.filter (d.matches u)).length := by
  rw [← Detector.matchingLines_map_snd, List.length_map]

theorem Detector.allFindings_length (u : Char → Char) (d : Detector) (lines : List String) :
    (d.allFindings u lines).length = (lines.filter (d.matches u)).length := by
  rw [Detector.allFindings, List.length_map, Detector.matchingLines_length]

theorem Detector.allFindings_eq_nil_iff (u : Char → Char) (d : Detector) (lines : List String) :
    d.allFindings u lines = [] ↔ ∀ line ∈ lines, d.matches u line = false := by
  rw [← List.length_eq_zero, Detector.allFindings_length, List.length_eq_zero,
    List.filter_eq_nil_iff]
  simp

theorem Detector.run_negative (u : Char → Char) (d : Detector) (r : CmdResult)
    (h : r.err = true ∨ ∀ line ∈ Split r.output, d.matches u line = false) :
    d.run u r = some ⟨d.technique, [], false⟩ := by
  rw [Detector.run_eq]
  rcases h with herr | hno
  · simp [herr]
  · have hnil := (Detector.allFindings_eq_nil_iff u d (Split r.output)).mpr hno
    simp [hnil, Detector.limit_nil]

theorem Detector.run_positive_iff (u : Char → Char) (d : Detector) (r : CmdResult)
    (hok : r.err = false) :
    ∃ ev, d.run u r = some ev ∧
      (ev.Positive = true ↔ ∃ line ∈ Split r.output, d.matches u line = true) := by
  refine ⟨_, Detector.run_eq u d r, ?_⟩
  simp only [hok, Bool.not_false, Bool.true_and, Bool.not_eq_true', List.isEmpty_eq_false]
  rw [Ne, Detector.allFindings_eq_nil_iff]
  push_neg
  simp

/-! ## C13 -/

/-- C13: end to end, when the strings dump is a successful output with the line
`thread 'main' panicked` and each of the other four tools fails or gives an output without a
matching line, the Evidence list of `main` has, in registration order, a positive record of
the string-pattern detector with at least one finding, followed by the four negative
records without findings, and `analyseEvidence` on it returns `(true, "low")`. -/
theorem one_positive_detector_low (u : Char → Char) (t : ToolResults)
    (hstrings : t.strings.err = false)
    (hline : "thread 'main' panicked" ∈ Split t.strings.output)
    (hnmAll : t.nmAll.err = true ∨
      ∀ line ∈ Split t.nmAll.output, Detector.symbolNames.matches u line = false)
    (hreadelf : t.readelf.err = true ∨
      ∀ line ∈ Split t.readelf.output, Detector.elfInfo.matches u line = false)
    (hnmDynamic : t.nmDynamic.err = true ∨
      ∀ line ∈ Split t.nmDynamic.output, Detector.memoryAllocator.matches u line = false)
    (hobjdump : t.objdump.err = true ∨
      ∀ line ∈ Split t.objdump.output, Detector.panicHandlers.matches u line = false) :
    ∃ first, first.Technique = "Rust-specific strings" ∧ first.Positive = true ∧
      first.Findings ≠ [] ∧ first = checkRustStrings u t.strings ∧
      main_allEvidence u t = some
        [first,
         ⟨"Rust symbol names", [], false⟩,
         ⟨"ELF headers and sections", [], false⟩,
         ⟨"Rust memory allocator", [], false⟩,
         ⟨"Rust panic handlers", [], false⟩] ∧
      main_verdict u t = some (true, "low") := by
  have h2 := Detector.run_negative u .symbolNames t.nmAll hnmAll
  have h3 := Detector.run_negative u .elfInfo t.readelf hreadelf
  have h4 := Detector.run_negative u .memoryAllocator t.nmDynamic hnmDynamic
  have h5 := Detector.run_negative u .panicHandlers t.objdump hobjdump
  simp only [Detector.run, Option.some.injEq, Detector.technique] at h2 h3 h4 h5
  have h1 := Detector.run_eq u .rustStrings t.strings
  simp only [Detector.run, Option.some.injEq, Detector.technique, hstrings] at h1
  have hmatch : Detector.rustStrings.matches u "thread 'main' panicked" = true := rfl
  have hne : Detector.rustStrings.allFindings u (Split t.strings.output) ≠ [] := by
    intro hnil
    have := (Detector.allFindings_eq_nil_iff u _ _).mp hnil _ hline
    rw [hmatch] at this
    exact Bool.noConfusion this
  obtain ⟨f, fs, hfs⟩ := List.exists_cons_of_ne_nil hne
  obtain ⟨tail, htail⟩ := Detector.rustStrings.limit_cons f fs
  have hall : main_allEvidence u t = some
      [checkRustStrings u t.strings,
       ⟨"Rust symbol names", [], false⟩,
       ⟨"ELF headers and sections", [], false⟩,
       ⟨"Rust memory allocator", [], false⟩,
       ⟨"Rust panic handlers", [], false⟩] := by
    simp only [main_allEvidence, h5, h2, h3, h4]
  have hpos : (checkRustStrings u t.strings).Positive = true := by
    rw [h1]; simp [hfs]
  refine ⟨checkRustStrings u t.strings, ?_, hpos, ?_, rfl, hall, ?_⟩
  · rw [h1]
  · rw [h1]; simp [hfs, htail]
  · simp only [main_verdict, hall, Option.some.injEq]
    rw [analyseEvidence_eq]
    simp [List.countP_cons, hpos, verdictOfCount]

/-- C13 on concrete tool results: the strings dump holds the line, `nm -a` fails, the other
three outputs have no matching line. -/
theorem one_positive_detector_low_witness :
    main_allEvidence id
        ⟨⟨"GNU\nthread 'main' panicked\n", false⟩, ⟨"", true⟩, ⟨"ELF Header:\n", false⟩,
          ⟨"U malloc\n", false⟩, ⟨"nop\nret\n", false⟩⟩ = some
      [⟨"Rust-specific strings", ["thread 'main' panicked"], true⟩,
       ⟨"Rust symbol names", [], false⟩,
       ⟨"ELF headers and sections", [], false⟩,
       ⟨"Rust memory allocator", [], false⟩,
       ⟨"Rust panic handlers", [], false⟩] ∧
    main_verdict id
        ⟨⟨"GNU\nthread 'main' panicked\n", false⟩, ⟨"", true⟩, ⟨"ELF Header:\n", false⟩,
          ⟨"U malloc\n", false⟩, ⟨"nop\nret\n", false⟩⟩ = some (true, "low") :=
  ⟨by decide,
   (one_positive_detector_low id
      ⟨⟨"GNU\nthread 'main' panicked\n", false⟩, ⟨"", true⟩, ⟨"ELF Header:\n", false⟩,
        ⟨"U malloc\n", false⟩, ⟨"nop\nret\n", false⟩⟩
      rfl (by decide) (Or.inl rfl) (Or.inr (by decide)) (Or.inr (by decide))
      (Or.inr (by decide))).elim (fun _ h => h.2.2.2.2.2)⟩

/-! ## C14 -/

/-- C14: end to end, when each of the five tool results is a failure or an output without a
matching line (the empty output is one), the five Evidence records of `main` are negative
and without findings and the verdict is `(false, "none")`; in particular the Evidence list
and the verdict when the allocator tool fails, with whatever output, and the other four
outputs are empty are those of five empty outputs. -/
theorem no_match_anywhere_none (u : Char → Char) (t : ToolResults)
    (hstrings : t.strings.err = true ∨
      ∀ line ∈ Split t.strings.output, Detector.rustStrings.matches u line = false)
    (hnmAll : t.nmAll.err = true ∨
      ∀ line ∈ Split t.nmAll.output, Detector.symbolNames.matches u line = false)
    (hreadelf : t.readelf.err = true ∨
      ∀ line ∈ Split t.readelf.output, Detector.elfInfo.matches u line = false)
    (hnmDynamic : t.nmDynamic.err = true ∨
      ∀ line ∈ Split t.nmDynamic.output, Detector.memoryAllocator.matches u line = false)
    (hobjdump : t.objdump.err = true ∨
      ∀ line ∈ Split t.objdump.output, Detector.panicHandlers.matches u line = false) :
    main_allEvidence u t = some
        [⟨"Rust-specific strings", [], false⟩,
         ⟨"Rust symbol names", [], false⟩,
         ⟨"ELF headers and sections", [], false⟩,
         ⟨"Rust memory allocator", [], false⟩,
         ⟨"Rust panic handlers", [], false⟩] ∧
    main_verdict u t = some (false, "none") ∧
    (∀ output : String,
      main_allEvidence u
          ⟨⟨"", false⟩, ⟨"", false⟩, ⟨"", false⟩, ⟨output, true⟩, ⟨"", false⟩⟩ =
        main_allEvidence u
          ⟨⟨"", false⟩, ⟨"", false⟩, ⟨"", false⟩, ⟨"", false⟩, ⟨"", false⟩⟩ ∧
      main_verdict u
          ⟨⟨"", false⟩, ⟨"", false⟩, ⟨"", false⟩, ⟨output, true⟩, ⟨"", false⟩⟩ =
        main_verdict u
          ⟨⟨"", false⟩, ⟨"", false⟩, ⟨"", false⟩, ⟨"", false⟩, ⟨"", false⟩⟩) := by
  have key : ∀ s : ToolResults,
      (s.strings.err = true ∨
        ∀ line ∈ Split s.strings.output, Detector.rustStrings.matches u line = false) →
      (s.nmAll.err = true ∨
        ∀ line ∈ Split s.nmAll.output, Detector.symbolNames.matches u line = false) →
      (s.readelf.err = true ∨
        ∀ line ∈ Split s.readelf.output, Detector.elfInfo.matches u line = false) →
      (s.nmDynamic.err = true ∨
        ∀ line ∈ Split s.nmDynamic.output, Detector.memoryAllocator.matches u line = false) →
      (s.objdump.err = true ∨
        ∀ line ∈ Split s.objdump.output, Detector.panicHandlers.matches u line = false) →
      main_allEvidence u s = some
        [⟨"Rust-specific strings", [], false⟩,
         ⟨"Rust symbol names", [], false⟩,
         ⟨"ELF headers and sections", [], false⟩,
         ⟨"Rust memory allocator", [], false⟩,
         ⟨"Rust panic handlers", [], false⟩] ∧
      main_verdict u s = some (false, "none") := by
    intro s k1 k2 k3 k4 k5
    have h1 := Detector.run_negative u .rustStrings s.strings k1
    have h2 := Detector.run_negative u .symbolNames s.nmAll k2
    have h3 := Detector.run_negative u .elfInfo s.readelf k3
    have h4 := Detector.run_negative u .memoryAllocator s.nmDynamic k4
    have h5 := Detector.run_negative u .panicHandlers s.objdump k5
    simp only [Detector.run, Option.some.injEq, Detector.technique] at h1 h2 h3 h4 h5
    have hall : main_allEvidence u s = some
        [⟨"Rust-specific strings", [], false⟩,
         ⟨"Rust symbol names", [], false⟩,
         ⟨"ELF headers and sections", [], false⟩,
         ⟨"Rust memory allocator", [], false⟩,
         ⟨"Rust panic handlers", [], false⟩] := by
      simp only [main_allEvidence, h5, h1, h2, h3, h4]
    refine ⟨hall, ?_⟩
    simp only [main_verdict, hall]
    rfl
  have hempty : ∀ d : Detector, ∀ line ∈ Split "", d.matches u line = false := fun d =>
    (Detector.allFindings_eq_nil_iff u d (Split "")).mp (Detector.allFindings_empty_output u d)
  refine ⟨(key t hstrings hnmAll hreadelf hnmDynamic hobjdump).1,
    (key t hstrings hnmAll hreadelf hnmDynamic hobjdump).2, fun output => ?_⟩
  have ha := key ⟨⟨"", false⟩, ⟨"", false⟩, ⟨"", false⟩, ⟨output, true⟩, ⟨"", false⟩⟩
    (Or.inr (hempty _)) (Or.inr (hempty _)) (Or.inr (hempty _)) (Or.inl rfl) (Or.inr (hempty _))
  have hb := key ⟨⟨"", false⟩, ⟨"", false⟩, ⟨"", false⟩, ⟨"", false⟩, ⟨"", false⟩⟩
    (Or.inr (hempty _)) (Or.inr (hempty _)) (Or.inr (hempty _)) (Or.inr (hempty _))
    (Or.inr (hempty _))
  exact ⟨ha.1.trans hb.1.symm, ha.2.trans hb.2.symm⟩

/-- C14 on concrete tool results: two tools fail, three give outputs without a matching
line. -/
theorem no_match_anywhere_none_witness :
    main_allEvidence id
        ⟨⟨"GNU\nmain\n", false⟩, ⟨"nm: no symbols", true⟩, ⟨"ELF Header:\n", false⟩,
          ⟨"", true⟩, ⟨"", false⟩⟩ = some
      [⟨"Rust-specific strings", [], false⟩,
       ⟨"Rust symbol names", [], false⟩,
       ⟨"ELF headers and sections", [], false⟩,
       ⟨"Rust memory allocator", [], false⟩,
       ⟨"Rust panic handlers", [], false⟩] ∧
    main_verdict id
        ⟨⟨"GNU\nmain\n", false⟩, ⟨"nm: no symbols", true⟩, ⟨"ELF Header:\n", false⟩,
          ⟨"", true⟩, ⟨"", false⟩⟩ = some (false, "none") :=
  ⟨(no_match_anywhere_none id
      ⟨⟨"GNU\nmain\n", false⟩, ⟨"nm: no symbols", true⟩, ⟨"ELF Header:\n", false⟩,
        ⟨"", true⟩, ⟨"", false⟩⟩
      (Or.inr (by decide)) (Or.inl rfl) (Or.inr (by decide)) (Or.inl rfl)
      (Or.inr (by decide))).1,
   (no_match_anywhere_none id
      ⟨⟨"GNU\nmain\n", false⟩, ⟨"nm: no symbols", true⟩, ⟨"ELF Header:\n", false⟩,
        ⟨"", true⟩, ⟨"", false⟩⟩
      (Or.inr (by decide)) (Or.inl rfl) (Or.inr (by decide)) (Or.inl rfl)
      (Or.inr (by decide))).2.1⟩

/-! ## C15 -/

/-- C15: for every detector and every successful tool output, the detector returns an
Evidence whose `Positive` flag is true if and only if at least one line of the output, split
at the newlines, passes the match test of the detector as coded; the flag is the one the
scan without any limit would give. -/
theorem positive_iff_line_matches (u : Char → Char) (d : Detector) (r : CmdResult)
    (hok : r.err = false) :
    ∃ ev, d.run u r = some ev ∧
      (ev.Positive = true ↔ ∃ line ∈ Split r.output, d.matches u line = true) ∧
      ev.Positive =
        (uncappedScan (d.itemsFrom u (Split r.output) 0 (Split r.output))
          ⟨d.technique, [], false⟩).Positive := by
  obtain ⟨ev, hrun, hiff⟩ := Detector.run_positive_iff u d r hok
  refine ⟨ev, hrun, hiff, ?_⟩
  have h := Detector.run_eq u d r
  rw [hrun, Option.some.injEq] at h
  rw [h, uncappedScan_eq, hits_itemsFrom_zero]
  simp [hok]

/-- C15 on a concrete `nm -a` output with six matching lines: the flag is true although the
scan stops after the fifth. -/
theorem positive_iff_line_matches_witness :
    ∃ ev, Detector.run id .symbolNames
        ⟨"_ZN4rust1a\n_ZN4rust1b\n_ZN4rust1c\n_ZN4rust1d\n_ZN4rust1e\n_ZN4rust1f", false⟩
        = some ev ∧
      (ev.Positive = true ↔
        ∃ line ∈ Split (CmdResult.mk
            "_ZN4rust1a\n_ZN4rust1b\n_ZN4rust1c\n_ZN4rust1d\n_ZN4rust1e\n_ZN4rust1f"
            false).output,
          Detector.symbolNames.matches id line = true) :=
  (positive_iff_line_matches id .symbolNames
    ⟨"_ZN4rust1a\n_ZN4rust1b\n_ZN4rust1c\n_ZN4rust1d\n_ZN4rust1e\n_ZN4rust1f", false⟩ rfl).elim
    (fun ev h => ⟨ev, h.1, h.2.1⟩)

/-! ## The findings below the limit -/

theorem capFindings_of_lt (cap : Nat) (findings : List String) (h : findings.length < cap) :
    capFindings cap findings = findings := by
  have : ¬ cap ≤ findings.length := by omega
  simp [capFindings, this]

theorem capFindings_of_le (cap : Nat) (findings : List String) (h : cap ≤ findings.length) :
    capFindings cap findings = findings.take cap ++ [omittedMarker] := by
  simp [capFindings, h]

theorem Detector.mem_allFindings (u : Char → Char) (d : Detector) (lines : List String)
    (f : String) (hf : f ∈ d.allFindings u lines) :
    ∃ i line, lines[i]? = some line ∧ d.matches u line = true ∧ f = d.finding lines i line := by
  obtain ⟨p, hp, hpe⟩ := List.mem_map.mp hf
  have h := Detector.mem_matchingLines u d lines p hp
  exact ⟨p.1, p.2, h.1, h.2, hpe.symm⟩

theorem Detector.marker_not_mem_allFindings (u : Char → Char)
    (hSpace : ∀ c, isSpace c = true → u c = c) (d : Detector) (lines : List String) :
    omittedMarker ∉ d.allFindings u lines := by
  intro hmem
  obtain ⟨i, line, -, hmatch, heq⟩ := Detector.mem_allFindings u d lines _ hmem
  exact Detector.finding_ne_marker u hSpace d lines i line hmatch heq.symm

theorem rustStrings_allFindings (u : Char → Char) (lines : List String) :
    Detector.rustStrings.allFindings u lines = lines.filter (Detector.rustStrings.matches u) := by
  rw [← Detector.matchingLines_map_snd]
  rfl

theorem symbolNames_allFindings (u : Char → Char) (lines : List String) :
    Detector.symbolNames.allFindings u lines = lines.filter (Detector.symbolNames.matches u) := by
  rw [← Detector.matchingLines_map_snd]
  rfl

theorem elfInfo_allFindings (u : Char → Char) (lines : List String) :
    Detector.elfInfo.allFindings u lines =
      (lines.filter (Detector.elfInfo.matches u)).map TrimSpace := by
  rw [← Detector.matchingLines_map_snd, List.map_map]
  rfl

/-! ## C16 -/

/-- C16: for `checkRustStrings` and for `checkSymbolNames`, on every successful tool output
with fewer than 5 matching lines, `Findings` is the list of the lines of the output that
match, each as it is, in input order and as often as it occurs among the lines, whatever
the number of patterns it matches; the marker is not among them. -/
theorem findings_are_matching_lines (u : Char → Char) (r : CmdResult) (hok : r.err = false) :
    (((Split r.output).filter (Detector.rustStrings.matches u)).length < 5 →
      (checkRustStrings u r).Findings =
        (Split r.output).filter (Detector.rustStrings.matches u) ∧
      omittedMarker ∉ (checkRustStrings u r).Findings) ∧
    (((Split r.output).filter (Detector.symbolNames.matches u)).length < 5 →
      (checkSymbolNames r).Findings =
        (Split r.output).filter (Detector.symbolNames.matches u) ∧
      omittedMarker ∉ (checkSymbolNames r).Findings) := by
  have hmark : ∀ d : Detector, ∀ lines : List String,
      (d = .rustStrings ∨ d = .symbolNames) → omittedMarker ∉ lines.filter (d.matches u) := by
    intro d lines hd hmem
    have hm := (List.mem_filter.mp hmem).2
    rcases hd with rfl | rfl
    · have h : Detector.rustStrings.matches u omittedMarker = false := rfl
      rw [h] at hm; exact Bool.noConfusion hm
    · have h : Detector.symbolNames.matches u omittedMarker = false := rfl
      rw [h] at hm; exact Bool.noConfusion hm
  constructor
  · intro hlt
    have h := Detector.run_eq u .rustStrings r
    simp only [Detector.run, Option.some.injEq] at h
    have hf : (checkRustStrings u r).Findings =
        (Split r.output).filter (Detector.rustStrings.matches u) := by
      rw [h]
      simp only [hok, Bool.false_eq_true, if_false, Detector.limit, Detector.cap,
        rustStrings_allFindings]
      exact capFindings_of_lt 5 _ hlt
    exact ⟨hf, hf ▸ hmark .rustStrings _ (Or.inl rfl)⟩
  · intro hlt
    have h := Detector.run_eq u .symbolNames r
    simp only [Detector.run, Option.some.injEq] at h
    have hf : (checkSymbolNames r).Findings =
        (Split r.output).filter (Detector.symbolNames.matches u) := by
      rw [h]
      simp only [hok, Bool.false_eq_true, if_false, Detector.limit, Detector.cap,
        symbolNames_allFindings]
      exact capFindings_of_lt 5 _ hlt
    exact ⟨hf, hf ▸ hmark .symbolNames _ (Or.inr rfl)⟩

/-- C16 on a concrete strings dump: the line `rustc cargo` matches three patterns and is
recorded once, the line `Cargo.toml` is recorded in its own letter case. -/
theorem findings_are_matching_lines_witness :
    checkRustStrings id ⟨"GNU\nrustc cargo\nmain\nCargo.toml\n", false⟩ =
      ⟨"Rust-specific strings", ["rustc cargo", "Cargo.toml"], true⟩ ∧
    (checkRustStrings id ⟨"GNU\nrustc cargo\nmain\nCargo.toml\n", false⟩).Findings =
      (Split (CmdResult.mk "GNU\nrustc cargo\nmain\nCargo.toml\n" false).output).filter
        (Detector.rustStrings.matches id) :=
  ⟨by decide,
   ((findings_are_matching_lines id ⟨"GNU\nrustc cargo\nmain\nCargo.toml\n", false⟩ rfl).1
      (by decide)).1⟩

/-! ## The ends of a trimmed line -/

theorem TrimSpace_last (s : String) (c : Char)
    (h : (TrimSpace s).data.getLast? = some c) : isSpace c = false := by
  simp only [TrimSpace, List.getLast?_reverse] at h
  have hnot := List.head?_dropWhile_not isSpace (s.data.dropWhile isSpace).reverse
  rw [h] at hnot
  exact hnot

theorem TrimSpace_head (s : String) (c : Char)
    (h : (TrimSpace s).data.head? = some c) : isSpace c = false := by
  simp only [TrimSpace, List.head?_reverse] at h
  have hsplit := List.takeWhile_append_dropWhile isSpace (s.data.dropWhile isSpace).reverse
  have hlast : ((s.data.dropWhile isSpace).reverse).getLast? = some c := by
    rw [← hsplit, List.getLast?_append, h]
    rfl
  rw [List.getLast?_reverse] at hlast
  have hnot := List.head?_dropWhile_not isSpace s.data
  rw [hlast] at hnot
  exact hnot

theorem elfInfo_trimmed_ne_empty (u : Char → Char)
    (hSpace : ∀ c, isSpace c = true → u c = c)
    (line : String) (hmatch : Detector.elfInfo.matches u line = true) :
    (TrimSpace line).data ≠ [] := by
  intro hnil
  obtain ⟨front, back, hfront, hback, hline⟩ := TrimSpace_decompose line
  rw [hnil, List.append_nil] at hline
  simp only [Detector.matches, List.any_eq_true] at hmatch
  obtain ⟨pattern, hmem, hcontains⟩ := hmatch
  have hp : ∀ p ∈ checkElfInfo_rustPatterns,
      (∀ c ∈ p.data, ¬ isSpace c = true) ∧ p.data ≠ [] := by decide
  obtain ⟨hnospace, hne⟩ := hp pattern hmem
  have hlow : (ToLower u line).data = (front ++ back).map (lowerRune u) ++ [] := by
    simp [ToLower, hline]
  rw [Contains, containsChars_iff, hlow] at hcontains
  have hall : ∀ c ∈ (front ++ back).map (lowerRune u), isSpace c = true := by
    intro c hc
    obtain ⟨a, ha, rfl⟩ := List.mem_map.mp hc
    have hsp : isSpace a = true := by
      rcases List.mem_append.mp ha with h | h
      · exact hfront a h
      · exact hback a h
    rw [lowerRune_space u hSpace a hsp]
    exact hsp
  have h := infix_strip_left (fun c => isSpace c = true) pattern.data hnospace hne _ _
    hall hcontains
  exact hne (List.infix_nil.mp h)

/-! ## C17 -/

/-- C17: for `checkElfInfo` on every successful tool output, every entry of `Findings` other
than the marker is `strings.TrimSpace` of a line of the output that matches; it is not
empty and neither its first nor its last rune is white space.  On outputs with fewer than 5
matching lines `Findings` is the list of the matching lines in input order with
`strings.TrimSpace` applied to each.  The table of `unicode.ToLower` is assumed to leave
white space unchanged. -/
theorem elfInfo_findings_trimmed (u : Char → Char)
    (hSpace : ∀ c, isSpace c = true → u c = c) (r : CmdResult) (hok : r.err = false) :
    (∀ f ∈ (checkElfInfo u r).Findings, f ≠ omittedMarker →
      (∃ line ∈ Split r.output, Detector.elfInfo.matches u line = true ∧ f = TrimSpace line) ∧
      f.data ≠ [] ∧
      (∀ c, f.data.head? = some c → isSpace c = false) ∧
      (∀ c, f.data.getLast? = some c → isSpace c = false)) ∧
    (((Split r.output).filter (Detector.elfInfo.matches u)).length < 5 →
      (checkElfInfo u r).Findings =
        ((Split r.output).filter (Detector.elfInfo.matches u)).map TrimSpace) := by
  have h := Detector.run_eq u .elfInfo r
  simp only [Detector.run, Option.some.injEq] at h
  have hf : (checkElfInfo u r).Findings =
      capFindings 5 (((Split r.output).filter (Detector.elfInfo.matches u)).map TrimSpace) := by
    rw [h]
    simp only [hok, Bool.false_eq_true, if_false, Detector.limit, Detector.cap,
      elfInfo_allFindings]
  constructor
  · intro f hmem hne
    rw [hf] at hmem
    have hin : f ∈ ((Split r.output).filter (Detector.elfInfo.matches u)).map TrimSpace := by
      unfold capFindings at hmem
      split at hmem
      · rcases List.mem_append.mp hmem with h1 | h1
        · exact List.mem_of_mem_take h1
        · exact absurd (List.mem_singleton.mp h1) hne
      · exact hmem
    obtain ⟨line, hline, rfl⟩ := List.mem_map.mp hin
    obtain ⟨hl, hm⟩ := List.mem_filter.mp hline
    exact ⟨⟨line, hl, hm, rfl⟩, elfInfo_trimmed_ne_empty u hSpace line hm,
      TrimSpace_head line, TrimSpace_last line⟩
  · intro hlt
    rw [hf]
    exact capFindings_of_lt 5 _ (by simpa using hlt)

/-- C17 on a concrete `readelf` output with two matching lines, one indented, one followed
by blanks. -/
theorem elfInfo_findings_trimmed_witness :
    checkElfInfo id ⟨"Section Headers:\n  [29] .rustc  PROGBITS \n\t.rust_info\t\n", false⟩ =
      ⟨"ELF headers and sections", ["[29] .rustc  PROGBITS", ".rust_info"], true⟩ ∧
    (checkElfInfo id
        ⟨"Section Headers:\n  [29] .rustc  PROGBITS \n\t.rust_info\t\n", false⟩).Findings =
      ((Split (CmdResult.mk "Section Headers:\n  [29] .rustc  PROGBITS \n\t.rust_info\t\n"
          false).output).filter (Detector.elfInfo.matches id)).map TrimSpace :=
  ⟨by decide,
   (elfInfo_findings_trimmed id (fun _ _ => rfl)
      ⟨"Section Headers:\n  [29] .rustc  PROGBITS \n\t.rust_info\t\n", false⟩ rfl).2
      (by decide)⟩

/-! ## The symbol regex as a rule on substrings -/

theorem matchAnyThenRust_iff (text : List Char) :
    matchAnyThenRust text = true ↔
      ∃ b c, text = b ++ "rust".data ++ c ∧ '\n' ∉ b := by
  induction text with
  | nil =>
    simp only [matchAnyThenRust, Bool.false_eq_true, false_iff]
    rintro ⟨b, c, h, -⟩
    have hlen := congrArg List.length h
    simp at hlen
    omega
  | cons x xs ih =>
    rw [matchAnyThenRust, Bool.or_eq_true, List.isPrefixOf_iff_prefix, Bool.and_eq_true, ih]
    constructor
    · rintro (⟨t, ht⟩ | ⟨hx, b, c, hxs, hb⟩)
      · exact ⟨[], t, by simpa using ht.symm, by simp⟩
      · refine ⟨x :: b, c, by simp [hxs], ?_⟩
        simp only [List.mem_cons, not_or]
        exact ⟨fun h => by simp [← h] at hx, hb⟩
    · rintro ⟨b, c, h, hb⟩
      cases b with
      | nil => exact Or.inl ⟨c, by simpa using h.symm⟩
      | cons y b =>
        simp only [List.cons_append, List.cons.injEq] at h
        simp only [List.mem_cons, not_or] at hb
        refine Or.inr ⟨?_, b, c, h.2, hb.2⟩
        rw [h.1]
        simpa using fun h' => hb.1 h'.symm

theorem matchZNRust_iff (text : List Char) :
    matchZNRust text = true ↔
      ∃ a b c, text = a ++ "_ZN".data ++ b ++ "rust".data ++ c ∧ '\n' ∉ b := by
  induction text with
  | nil =>
    simp only [matchZNRust, Bool.false_eq_true, false_iff]
    rintro ⟨a, b, c, h, -⟩
    have hlen := congrArg List.length h
    simp at hlen
    omega
  | cons x xs ih =>
    rw [matchZNRust, Bool.or_eq_true, Bool.and_eq_true, List.isPrefixOf_iff_prefix, ih]
    constructor
    · rintro (⟨⟨t, ht⟩, hrest⟩ | ⟨a, b, c, hxs, hb⟩)
      · have hdrop : (x :: xs).drop 3 = t := by
          rw [← ht]; rfl
        rw [hdrop, matchAnyThenRust_iff] at hrest
        obtain ⟨b, c, htb, hb⟩ := hrest
        exact ⟨[], b, c, by rw [← ht, htb]; simp, hb⟩
      · exact ⟨x :: a, b, c, by simp [hxs], hb⟩
    · rintro ⟨a, b, c, h, hb⟩
      cases a with
      | nil =>
        left
        refine ⟨⟨b ++ "rust".data ++ c, by rw [h]; simp⟩, ?_⟩
        have hdrop : (x :: xs).drop 3 = b ++ "rust".data ++ c := by
          rw [h]; simp
        rw [hdrop, matchAnyThenRust_iff]
        exact ⟨b, c, rfl, hb⟩
      | cons y a =>
        right
        simp only [List.cons_append, List.cons.injEq] at h
        exact ⟨a, b, c, h.2, hb⟩

theorem splitNewline_ne_nil (text : List Char) : splitNewline text ≠ [] := by
  cases text with
  | nil => simp [splitNewline]
  | cons c cs =>
    rw [splitNewline]
    split
    · simp
    · split <;> simp

theorem splitNewline_no_newline (text : List Char) :
    ∀ piece ∈ splitNewline text, '\n' ∉ piece := by
  induction text with
  | nil => simp [splitNewline]
  | cons c cs ih =>
    intro piece hpiece
    rw [splitNewline] at hpiece
    split at hpiece
    · rcases List.mem_cons.mp hpiece with rfl | h
      · simp
      · exact ih piece h
    · rename_i hc
      cases hs : splitNewline cs with
      | nil => exact absurd hs (splitNewline_ne_nil cs)
      | cons p ps =>
        rw [hs] at hpiece ih
        rcases List.mem_cons.mp hpiece with rfl | h
        · simp only [List.mem_cons, not_or]
          exact ⟨fun h => hc h.symm, ih p (List.mem_cons_self p ps)⟩
        · exact ih piece (List.mem_cons_of_mem p h)

theorem Split_no_newline (s line : String) (h : line ∈ Split s) : '\n' ∉ line.data := by
  obtain ⟨piece, hpiece, rfl⟩ := List.mem_map.mp h
  exact splitNewline_no_newline s.data piece hpiece

theorem rustSymbolRegex_line_iff (s line : String) (h : line ∈ Split s) :
    rustSymbolRegex_MatchString line = true ↔
      ∃ a b c, line.data = a ++ "_ZN".data ++ b ++ "rust".data ++ c := by
  rw [rustSymbolRegex_MatchString, matchZNRust_iff]
  constructor
  · rintro ⟨a, b, c, heq, -⟩
    exact ⟨a, b, c, heq⟩
  · rintro ⟨a, b, c, heq⟩
    refine ⟨a, b, c, heq, fun hb => Split_no_newline s line h ?_⟩
    rw [heq]
    simp [hb]

/-! ## C18 -/

/-- C18: `checkSymbolNames` treats a line of the output as a match if and only if the line
has the form `a ++ "_ZN" ++ b ++ "rust" ++ c`, that is, it contains `_ZN` in this letter
case and, at or after the end of that occurrence, `rust` in this letter case; on a successful
output the Evidence is positive if and only if some line has that form.  So `rust` inside
`trust` after `_ZN` makes the Evidence positive, while `rust` only before `_ZN`, `Rust` and
`RUST` do not. -/
theorem symbolNames_match_rule (r : CmdResult) :
    (∀ line ∈ Split r.output,
      (rustSymbolRegex_MatchString line = true ↔
        ∃ a b c, line.data = a ++ "_ZN".data ++ b ++ "rust".data ++ c)) ∧
    (r.err = false →
      ((checkSymbolNames r).Positive = true ↔
        ∃ line ∈ Split r.output,
          ∃ a b c, line.data = a ++ "_ZN".data ++ b ++ "rust".data ++ c)) ∧
    (checkSymbolNames ⟨"0000000000001a2b T _ZN5trust4mainE", false⟩).Positive = true ∧
    (checkSymbolNames ⟨"0000000000001a2b T rust_ZN4mainE", false⟩).Positive = false ∧
    (checkSymbolNames ⟨"0000000000001a2b T _ZN4Rust4mainE", false⟩).Positive = false ∧
    (checkSymbolNames ⟨"0000000000001a2b T _ZN4RUST4mainE", false⟩).Positive = false := by
  refine ⟨fun line hline => rustSymbolRegex_line_iff r.output line hline, fun hok => ?_,
    by decide, by decide, by decide, by decide⟩
  obtain ⟨ev, hrun, hiff⟩ := Detector.run_positive_iff id .symbolNames r hok
  simp only [Detector.run, Option.some.injEq] at hrun
  rw [hrun, hiff]
  constructor
  · rintro ⟨line, hline, hm⟩
    exact ⟨line, hline, (rustSymbolRegex_line_iff r.output line hline).mp hm⟩
  · rintro ⟨line, hline, hm⟩
    exact ⟨line, hline, (rustSymbolRegex_line_iff r.output line hline).mpr hm⟩

/-- C18 on a concrete `nm -a` output: the only line with `rust` after `_ZN` is the one that
is found. -/
theorem symbolNames_match_rule_witness :
    checkSymbolNames ⟨"T rust_ZN1a\nT _ZN7entrust\nT _ZN4Rust", false⟩ =
      ⟨"Rust symbol names", ["T _ZN7entrust"], true⟩ ∧
    ((checkSymbolNames ⟨"T rust_ZN1a\nT _ZN7entrust\nT _ZN4Rust", false⟩).Positive = true ↔
      ∃ line ∈ Split (CmdResult.mk "T rust_ZN1a\nT _ZN7entrust\nT _ZN4Rust" false).output,
        ∃ a b c, line.data = a ++ "_ZN".data ++ b ++ "rust".data ++ c) :=
  ⟨by decide,
   (symbolNames_match_rule ⟨"T rust_ZN1a\nT _ZN7entrust\nT _ZN4Rust", false⟩).2.1 rfl⟩

/-! ## C19 -/

/-- C19: for each detector with a limit `cap` (5 for the string-pattern, the symbol-name and
the structural-metadata detector, 3 for the panic/unwind detector) and every successful
tool output, the marker is the last entry of `Findings` if and only if the output has at
least `cap` matching lines; an output with exactly `cap` matching lines yields the `cap`
findings of all of them followed by the marker, `cap + 1` entries.  The table of
`unicode.ToLower` is assumed to leave white space unchanged. -/
theorem marker_last_iff_cap_reached (u : Char → Char)
    (hSpace : ∀ c, isSpace c = true → u c = c) (d : Detector) (cap : Nat) (r : CmdResult)
    (hcap : d.cap = some cap) (hok : r.err = false) :
    ∃ ev, d.run u r = some ev ∧
      (ev.Findings.getLast? = some omittedMarker ↔
        cap ≤ ((Split r.output).filter (d.matches u)).length) ∧
      (((Split r.output).filter (d.matches u)).length = cap →
        ev.Findings = d.allFindings u (Split r.output) ++ [omittedMarker] ∧
        ev.Findings.length = cap + 1) := by
  obtain ⟨ev, hrun, -, hfind, -⟩ := Detector.run_ok_findings u d r hok
  have hlen := Detector.allFindings_length u d (Split r.output)
  have hlim : d.limit (d.allFindings u (Split r.output)) =
      capFindings cap (d.allFindings u (Split r.output)) := by
    simp only [Detector.limit, hcap]
  rw [hlim] at hfind
  refine ⟨ev, hrun, ?_, ?_⟩
  · rw [hfind]
    constructor
    · intro hlast
      by_contra hlt
      rw [capFindings_of_lt cap (d.allFindings u (Split r.output)) (by omega)] at hlast
      exact Detector.marker_not_mem_allFindings u hSpace d (Split r.output)
        (List.mem_of_getLast?_eq_some hlast)
    · intro hle
      rw [capFindings_of_le cap (d.allFindings u (Split r.output)) (by omega),
        List.getLast?_concat]
  · intro heq
    have hf : ev.Findings = d.allFindings u (Split r.output) ++ [omittedMarker] := by
      rw [hfind, capFindings_of_le cap (d.allFindings u (Split r.output)) (by omega),
        List.take_of_length_le (by omega)]
    refine ⟨hf, ?_⟩
    rw [hf, List.length_append, hlen, heq]
    rfl

/-- C19 on a concrete disassembly with exactly three matching lines, the last of them being
the last line: three findings and the marker. -/
theorem marker_last_iff_cap_reached_witness :
    Detector.run id .panicHandlers ⟨"panic\nrust_panic\nPANIC", false⟩ = some
      ⟨"Rust panic handlers",
        ["Found panic-related code:\npanic\nrust_panic\nPANIC",
         "Found panic-related code:\npanic\nrust_panic\nPANIC",
         "Found panic-related code:\npanic\nrust_panic\nPANIC",
         "... (more findings omitted)"], true⟩ ∧
    ∃ ev, Detector.run id .panicHandlers ⟨"panic\nrust_panic\nPANIC", false⟩ = some ev ∧
      (ev.Findings.getLast? = some omittedMarker ↔
        3 ≤ ((Split (CmdResult.mk "panic\nrust_panic\nPANIC" false).output).filter
          (Detector.panicHandlers.matches id)).length) :=
  ⟨by decide,
   (marker_last_iff_cap_reached id (fun _ _ => rfl) .panicHandlers 3
      ⟨"panic\nrust_panic\nPANIC", false⟩ rfl rfl).elim (fun ev h => ⟨ev, h.1, h.2.1⟩)⟩

/-! ## The patterns of checkRustStrings that add nothing -/

theorem lowerRune_not_upper (u : Char → Char)
    (hUpper : ∀ c : Char, 128 ≤ c.toNat → ¬ ('A' ≤ u c ∧ u c ≤ 'Z')) (c : Char) :
    ¬ ('A' ≤ lowerRune u c ∧ lowerRune u c ≤ 'Z') := by
  unfold lowerRune
  split
  · split
    · rename_i hup
      have h1 := hup.1
      have h2 := hup.2
      rw [Char.le_def, UInt32.le_def] at h1 h2
      have h3 : 65 ≤ c.toNat := h1
      have h4 : c.toNat ≤ 90 := h2
      generalize c.toNat = n at h3 h4
      interval_cases n <;> decide
    · rename_i hup
      exact hup
  · rename_i hlt
    apply hUpper
    rw [UInt32.lt_def] at hlt
    have h : ¬ c.toNat < 128 := hlt
    omega

theorem Contains_ToLower_upper (u : Char → Char)
    (hUpper : ∀ c : Char, 128 ≤ c.toNat → ¬ ('A' ≤ u c ∧ u c ≤ 'Z')) (line pattern : String)
    (x : Char) (hx : x ∈ pattern.data) (hup : 'A' ≤ x ∧ x ≤ 'Z') :
    Contains (ToLower u line) pattern = false := by
  cases hc : Contains (ToLower u line) pattern with
  | false => rfl
  | true =>
    exfalso
    rw [Contains, containsChars_iff] at hc
    have hmem : x ∈ (ToLower u line).data := hc.subset hx
    simp only [ToLower, List.mem_map] at hmem
    obtain ⟨a, -, rfl⟩ := hmem
    exact lowerRune_not_upper u hUpper a hup

theorem Contains_rustc_rust (s : String) (h : Contains s "rustc" = true) :
    Contains s "rust" = true := by
  rw [Contains, containsChars_iff] at h ⊢
  exact List.IsInfix.trans ⟨[], ['c'], rfl⟩ h

theorem rustStrings_matches_fivePatterns (u : Char → Char)
    (hUpper : ∀ c : Char, 128 ≤ c.toNat → ¬ ('A' ≤ u c ∧ u c ≤ 'Z')) (line : String) :
    checkRustStrings_rustPatterns.any (fun pattern => Contains (ToLower u line) pattern) =
      fivePatterns.any (fun pattern => Contains (ToLower u line) pattern) := by
  have h1 := Contains_ToLower_upper u hUpper line "core::result::Result" 'R'
    (by decide) (by decide)
  have h2 := Contains_ToLower_upper u hUpper line "core::option::Option" 'O'
    (by decide) (by decide)
  have h3 := Contains_rustc_rust (ToLower u line)
  simp only [checkRustStrings_rustPatterns, fivePatterns, List.any_cons, List.any_nil, h1, h2,
    Bool.false_or, Bool.or_false]
  cases hc : Contains (ToLower u line) "rustc"
  · simp
  · simp [h3 hc]

theorem checkRustStrings_lineLoop_fivePatterns (u : Char → Char)
    (hUpper : ∀ c : Char, 128 ≤ c.toNat → ¬ ('A' ≤ u c ∧ u c ≤ 'Z'))
    (lines : List String) (ev : Evidence) :
    checkRustStrings_lineLoop u lines ev = fivePatterns_lineLoop u lines ev := by
  induction lines generalizing ev with
  | nil => rfl
  | cons line lines ih =>
    simp only [checkRustStrings_lineLoop, fivePatterns_lineLoop,
      checkRustStrings_patternLoop_eq, rustStrings_matches_fivePatterns u hUpper line, ih]

/-! ## C20 -/

/-- C20: in `checkRustStrings` the patterns `core::result::Result`, `core::option::Option`
and `rustc` add nothing.  The two patterns with capitals are found in no lower-cased line,
and a lower-cased line that contains `rustc` contains `rust`; so for every tool result the
Evidence is the one of the same scan run with the five patterns `rust`, `cargo`,
`std::panic`, `alloc::`, `thread 'main' panicked` only.  The table of `unicode.ToLower` is
assumed to give no capital of the ASCII range, as the one of Go does. -/
theorem rustStrings_redundant_patterns (u : Char → Char)
    (hUpper : ∀ c : Char, 128 ≤ c.toNat → ¬ ('A' ≤ u c ∧ u c ≤ 'Z')) (r : CmdResult) :
    (∀ line : String,
      Contains (ToLower u line) "core::result::Result" = false ∧
      Contains (ToLower u line) "core::option::Option" = false ∧
      (Contains (ToLower u line) "rustc" = true → Contains (ToLower u line) "rust" = true)) ∧
    checkRustStrings u r = checkRustStrings_fivePatterns u r := by
  refine ⟨fun line => ⟨?_, ?_, Contains_rustc_rust _⟩, ?_⟩
  · exact Contains_ToLower_upper u hUpper line _ 'R' (by decide) (by decide)
  · exact Contains_ToLower_upper u hUpper line _ 'O' (by decide) (by decide)
  · simp only [checkRustStrings, checkRustStrings_fivePatterns,
      checkRustStrings_lineLoop_fivePatterns u hUpper]

/-- C20 on a concrete strings dump with a line for each of the three patterns. -/
theorem rustStrings_redundant_patterns_witness :
    checkRustStrings id ⟨"core::result::Result\nrustc 1.70\ncore::option::Option", false⟩ =
      ⟨"Rust-specific strings", ["rustc 1.70"], true⟩ ∧
    checkRustStrings id ⟨"core::result::Result\nrustc 1.70\ncore::option::Option", false⟩ =
      checkRustStrings_fivePatterns id
        ⟨"core::result::Result\nrustc 1.70\ncore::option::Option", false⟩ :=
  ⟨by decide,
   (rustStrings_redundant_patterns id
      (fun c hc hup => by
        have h2 := hup.2
        rw [Char.le_def, UInt32.le_def] at h2
        have h3 : c.toNat ≤ 90 := h2
        omega)
      ⟨"core::result::Result\nrustc 1.70\ncore::option::Option", false⟩).2⟩

end Trombone
